import Mathlib

/-!
# Nested assertion tokens (`assertgen/main.go`)

A shallow embedding of the token builders (`newencode`, `newschnorrencode`) and the token
validators (`validateassertion`, `validateschnorrassertion`, `validateschnorrtrace`) of
`src/assertgen/main.go`, together with the helpers they call (`getkeys`, `loadsig`,
`string2pubkey`, `pubkey2string`, `checkaudlink`, `ParseECDSAPublicKey`), of `printtoken` and
`setEnvVariable`, and of the commands `print`, `ecdsagen`, `ecdsaver`, `append`, `multiappend`,
`schkeypair`, `schgen`, `schver`, `traceadd`, `tracever` and `concatenate` of `main`.

Conventions of the embedding.

* A Go `string` is a list of Unicode code points (`Str`), i.e. the model covers the strings
  that are valid UTF-8; a `[]byte` is a list of `Fin 256`.
* The Go standard-library string functions the code calls (`strings.Split`, `SplitAfter`,
  `Join`, `Fields`, `Trim`, `fmt.Sprintf("%s", ...)`, `base64.RawURLEncoding`) are written out
  as executable functions.
* Everything that lives in an external library and is not a string function (JSON, SHA-256,
  ECDSA, PEM/PKIX, the kyber curve, the dasvid Schnorr library, the HTTP key directory) is a field
  of the record `Lib`; theorems quantify over every `Lib`.
* A call either returns, calls `os.Exit`, or panics: `Outcome`.
* Output written with `fmt.Printf` and the `timeTrack` timer are not part of the model, except
  for the tokens a command prints, which are the result of its model.
* The library functions that only the commands call are the fields of the record `Host`; the
  workload identity, the clock and the randomness are arguments of the commands.
-/

namespace SignedAssertions

/-! ## Strings and bytes -/

/-- A Go string, as the list of its code points. -/
abbrev Str := List Char

/-- One byte. -/
abbrev Byte := Fin 256

/-- A Go byte slice. -/
abbrev Bytes := List Byte

/-- The call `strings.Split(s, sep)` for a one-character separator; every call site of the
program passes a one-character separator. `Split("", sep)` is the one-element slice `[""]`. -/
def split (sep : Char) : Str → List Str
  | [] => [[]]
  | c :: cs =>
    if c = sep then [] :: split sep cs
    else
      match split sep cs with
      | [] => [[c]]
      | s :: ss => (c :: s) :: ss

/-- The call `strings.SplitAfter(s, sep)` for a one-character separator: like `split`, but each
piece keeps the separator that ends it. -/
def splitAfter (sep : Char) : Str → List Str
  | [] => [[]]
  | c :: cs =>
    if c = sep then [c] :: splitAfter sep cs
    else
      match splitAfter sep cs with
      | [] => [[c]]
      | s :: ss => (c :: s) :: ss

/-- The call `strings.Join(elems, sep)`. -/
def join (sep : Str) : List Str → Str
  | [] => []
  | [a] => a
  | a :: b :: rest => a ++ sep ++ join sep (b :: rest)

/-- The predicate `unicode.IsSpace`: the code points with the Unicode White_Space property. -/
def isSpace (c : Char) : Bool :=
  let n := c.toNat
  (9 ≤ n && n ≤ 13) || n == 0x20 || n == 0x85 || n == 0xA0 || n == 0x1680 ||
    (0x2000 ≤ n && n ≤ 0x200A) || n == 0x2028 || n == 0x2029 || n == 0x202F ||
    n == 0x205F || n == 0x3000

/-- The call `strings.Fields(s)`: the maximal runs of non-space code points of `s`, in order. -/
def fields : Str → List Str
  | [] => []
  | c :: cs =>
    if isSpace c then fields cs
    else
      match cs with
      | [] => [[c]]
      | d :: _ =>
        if isSpace d then [c] :: fields cs
        else
          match fields cs with
          | [] => [[c]]
          | w :: ws => (c :: w) :: ws

/-- The call `strings.TrimLeft(s, cutset)`. -/
def trimLeft (cutset : Str) (s : Str) : Str :=
  s.dropWhile (fun c => cutset.contains c)

/-- The call `strings.TrimRight(s, cutset)`. -/
def trimRight (cutset : Str) (s : Str) : Str :=
  (s.reverse.dropWhile (fun c => cutset.contains c)).reverse

/-- The call `strings.Trim(s, cutset)`: all leading and trailing code points contained in `cutset`
are removed. -/
def trim (cutset : Str) (s : Str) : Str :=
  trimLeft cutset (trimRight cutset s)

/-- The call `fmt.Sprintf("%s", xs)` for a `[]string`: the elements separated by one blank, between
square brackets. -/
def sprintStrings (xs : List Str) : Str :=
  '[' :: (join [' '] xs ++ [']'])

/-- The Go slice expression `xs[lo:hi]`. -/
def slice (xs : List Str) (lo hi : Nat) : List Str :=
  (xs.take hi).drop lo

/-- The expression
`strings.Join(strings.Fields(strings.Trim(fmt.Sprintf("%s", parts[i+1:j]), "[]")), ".")`
that the three validators bind to `clean`. -/
def clean (parts : List Str) (i j : Nat) : Str :=
  join ['.'] (fields (trim ['[', ']'] (sprintStrings (slice parts (i + 1) j))))

/-- The string `parts[i] + "." + clean` (in the Schnorr validators
`strings.Join([]string{parts[i], clean}, ".")`) that the validators check the signature
`parts[j]` of an outer layer against. -/
def layerMessage (parts : List Str) (i j : Nat) : Str :=
  parts.getD i [] ++ ['.'] ++ clean parts i j

/-- A segment that `clean` leaves alone: it is not empty and holds no white space and no square
bracket. -/
def plainSegment (s : Str) : Prop :=
  s ≠ [] ∧ ∀ c ∈ s, isSpace c = false ∧ c ≠ '[' ∧ c ≠ ']'

/-! ## base64.RawURLEncoding -/

/-- The URL-safe base64 alphabet. -/
def b64Alphabet : Str :=
  "ABCDEFGHIJKLMNOPQRSTUVWXYZabcdefghijklmnopqrstuvwxyz0123456789-_".toList

/-- The character of the 6-bit value `n`. -/
def b64Char (n : Nat) : Char :=
  b64Alphabet.getD n 'A'

/-- The 6-bit value of a character of the alphabet (the decode map). -/
def b64Val (c : Char) : Option Nat :=
  let i := b64Alphabet.indexOf c
  if i < 64 then some i else none

/-- The call `base64.RawURLEncoding.EncodeToString`: three bytes give four characters, a final
group of one or two bytes gives two or three characters, there is no padding. -/
def b64Encode : Bytes → Str
  | [] => []
  | [a] => [b64Char (a.val / 4), b64Char (a.val % 4 * 16)]
  | [a, b] =>
    [b64Char (a.val / 4), b64Char (a.val % 4 * 16 + b.val / 16), b64Char (b.val % 16 * 4)]
  | a :: b :: c :: rest =>
    b64Char (a.val / 4) :: b64Char (a.val % 4 * 16 + b.val / 16) ::
      b64Char (b.val % 16 * 4 + c.val / 64) :: b64Char (c.val % 64) :: b64Encode rest

/-- Decoding of the significant characters, four at a time. The result is the decoded bytes and
whether an error is reported; as in Go, a quantum that is corrupt contributes no byte and ends the
decoding, and the bytes of the quanta before it are returned with the error. The encoding is not
strict: trailing bits of a final short quantum are ignored. -/
def b64DecodeQuanta : Str → Bytes × Bool
  | [] => ([], false)
  | [_] => ([], true)
  | [a, b] =>
    match b64Val a, b64Val b with
    | some x, some y => ([Fin.ofNat (x * 4 + y / 16)], false)
    | _, _ => ([], true)
  | [a, b, c] =>
    match b64Val a, b64Val b, b64Val c with
    | some x, some y, some z =>
      ([Fin.ofNat (x * 4 + y / 16), Fin.ofNat (y % 16 * 16 + z / 4)], false)
    | _, _, _ => ([], true)
  | a :: b :: c :: d :: rest =>
    match b64Val a, b64Val b, b64Val c, b64Val d with
    | some x, some y, some z, some w =>
      let r := b64DecodeQuanta rest
      (Fin.ofNat (x * 4 + y / 16) :: Fin.ofNat (y % 16 * 16 + z / 4) ::
        Fin.ofNat (z % 4 * 64 + w) :: r.1, r.2)
    | _, _, _, _ => ([], true)

/-- The call `base64.RawURLEncoding.DecodeString`: carriage returns and line feeds are skipped,
the rest is decoded by quanta. The second component tells whether `err != nil`. -/
def b64Decode (s : Str) : Bytes × Bool :=
  b64DecodeQuanta (s.filter (fun c => !(c == '\n' || c == '\r')))

/-- The conversion `[]byte(s)` of one code point: its UTF-8 encoding. -/
def utf8Char (c : Char) : Bytes :=
  let n := c.toNat
  if n < 0x80 then [Fin.ofNat n]
  else if n < 0x800 then [Fin.ofNat (0xC0 + n / 64), Fin.ofNat (0x80 + n % 64)]
  else if n < 0x10000 then
    [Fin.ofNat (0xE0 + n / 4096), Fin.ofNat (0x80 + n / 64 % 64), Fin.ofNat (0x80 + n % 64)]
  else
    [Fin.ofNat (0xF0 + n / 262144), Fin.ofNat (0x80 + n / 4096 % 64),
      Fin.ofNat (0x80 + n / 64 % 64), Fin.ofNat (0x80 + n % 64)]

/-- The conversion `[]byte(s)`. -/
def utf8 (s : Str) : Bytes :=
  s.flatMap utf8Char

/-! ## Results of a call -/

/-- How a call of a Go function ends: it returns a value, it ends the process with
`os.Exit(code)`, or it panics. -/
inductive Outcome (α : Type) where
  | ret (a : α)
  | exit (code : Nat)
  | panic
  deriving DecidableEq, Repr

/-- Sequencing: an exit or a panic of the first call ends the whole computation. -/
def Outcome.bind {α β : Type} (x : Outcome α) (f : α → Outcome β) : Outcome β :=
  match x with
  | .ret a => f a
  | .exit c => .exit c
  | .panic => .panic

instance : Monad Outcome where
  pure := Outcome.ret
  bind := Outcome.bind

/-! ## JSON values and claim maps -/

/-- A value stored in a Go `interface{}` by `json.Unmarshal` (or put into a claim map by the
program): `nil` (also what indexing a map at an absent key gives), a `bool`, a number, a
`string`, or a JSON array or object, kept as its rendering under `%s`. -/
inductive JValue where
  | null
  | bool (b : Bool)
  | number (x : ℚ)
  | string (s : Str)
  | array (rendering : Str)
  | object (rendering : Str)
  deriving DecidableEq

/-- A Go `map[string]interface{}`. The nil map is the empty list. -/
abbrev ClaimMap := List (Str × JValue)

/-- The index expression `m[k]`: `nil` when the key is absent (or the map is nil). -/
def mapGet (m : ClaimMap) (k : Str) : JValue :=
  match m.lookup k with
  | some v => v
  | none => .null

/-- The assignment `m[k] = v`; a map literal assigns its entries from left to right, so a later
entry with the same key replaces an earlier one. -/
def mapSet (m : ClaimMap) (k : Str) (v : JValue) : ClaimMap :=
  (k, v) :: m.filter (fun e => e.1 != k)

/-- The comparison `a == b` of two `interface{}` values: values of different dynamic types are
different, and comparing two arrays or two objects (slices, maps) is a run-time panic. -/
def goEq : JValue → JValue → Outcome Bool
  | .null, .null => .ret true
  | .bool a, .bool b => .ret (decide (a = b))
  | .number a, .number b => .ret (decide (a = b))
  | .string a, .string b => .ret (decide (a = b))
  | .array _, .array _ => .panic
  | .object _, .object _ => .panic
  | _, _ => .ret false

/-- A public key as `x509.ParsePKIXPublicKey` returns it: an ECDSA key or a key of another
algorithm. -/
inductive AnyPub (E : Type) where
  | ecdsa (k : E)
  | other

/-! ## The external libraries -/

/-- The library functions the program calls. -/
structure Lib where
  /-- The type `kyber.Point`. -/
  Point : Type
  /-- The type `kyber.Scalar`. -/
  Scalar : Type
  /-- The type `dasvid.Signature`. -/
  Sig : Type
  /-- The type `*ecdsa.PrivateKey`. -/
  ECPriv : Type
  /-- The type `*ecdsa.PublicKey`. -/
  ECPub : Type
  /-- The randomness a signing call draws (`rand.Reader`, `curve.RandomStream()`). -/
  Rand : Type
  /-- The call `json.Marshal` on a claim map (the error is dropped by every caller). -/
  jsonMarshal : ClaimMap → Bytes
  /-- The call `json.Unmarshal(data, &m)` on a nil map `m`, whose error every caller drops: the
  map afterwards, nil when the data is rejected. -/
  jsonUnmarshal : Bytes → ClaimMap
  /-- The rendering of a `float64` under `%v`. -/
  fmtFloat : ℚ → Str
  /-- The call `sha256.Sum256`. -/
  sha256 : Bytes → Bytes
  /-- The call `ecdsa.SignASN1(rand.Reader, key, hash)`; `none` is a non-nil error. -/
  signASN1 : Rand → ECPriv → Bytes → Option Bytes
  /-- The call `ecdsa.VerifyASN1(pub, hash, sig)`. -/
  verifyASN1 : ECPub → Bytes → Bytes → Bool
  /-- The call `pem.Decode`: the bytes of the first block, `none` when there is no block. -/
  pemDecode : Bytes → Option Bytes
  /-- The call `x509.ParsePKIXPublicKey`; `none` is a non-nil error. -/
  parsePKIX : Bytes → Option (AnyPub ECPub)
  /-- The request `GET url` to the key directory, from `http.NewRequest` to `ioutil.ReadAll`: the
  response body, or `none` when `client.Do` or `ReadAll` reports an error. The error of
  `http.NewRequest` is dropped, so a URL that it rejects leaves a nil request, on which
  `client.Do` panics. -/
  httpGet : Str → Outcome (Option Str)
  /-- The call `dasvid.Sign(message, key)`. -/
  Sign : Rand → Str → Scalar → Sig
  /-- The call `dasvid.Verify(message, signature, pubkey)`. -/
  Verify : Str → Sig → Point → Bool
  /-- The call `curve.Write(&buf, &point)`; `none` is a non-nil error. -/
  writePoint : Point → Option Bytes
  /-- The call `curve.Read(buf, &point)`; `none` is a non-nil error. -/
  readPoint : Bytes → Option Point
  /-- The call `curve.Write(&buf, &signature)`; `none` is a non-nil error. -/
  writeSig : Sig → Option Bytes
  /-- The call `curve.Read(buf, &signature)`; `none` is a non-nil error. -/
  readSig : Bytes → Option Sig

/-- The call `fmt.Sprintf("%s", v)` for an `interface{}` value: a string is printed as it is,
every other value with the bad-verb marker of package fmt. -/
def sprintS (L : Lib) : JValue → Str
  | .string s => s
  | .null => "%!s(<nil>)".toList
  | .bool b => "%!s(bool=".toList ++ (if b then "true".toList else "false".toList) ++ [')']
  | .number x => "%!s(float64=".toList ++ L.fmtFloat x ++ [')']
  | .array r => r
  | .object r => r

/-! ## Schnorr helpers -/

/-- The function `pubkey2string`. -/
def pubkey2string (L : Lib) (publicKey : L.Point) : Outcome Str :=
  match L.writePoint publicKey with
  | none => .exit 1
  | some buf => .ret (b64Encode buf)

/-- The function `string2pubkey`: the errors of both `DecodeString` calls and of
`json.Unmarshal` are dropped, an error of `curve.Read` ends the process. -/
def string2pubkey (L : Lib) (message : Str) : Outcome L.Point :=
  let decodedparti := (b64Decode message).1
  let tmp := L.jsonUnmarshal decodedparti
  let tmppubkey := (b64Decode (sprintS L (mapGet tmp "iss".toList))).1
  match L.readPoint tmppubkey with
  | none => .exit 1
  | some pubkey => .ret pubkey

/-- The function `checkaudlink`. -/
def checkaudlink (L : Lib) (issmsg audmsg : Str) : Outcome Bool :=
  let decodediss := (b64Decode issmsg).1
  let tmpiss := L.jsonUnmarshal decodediss
  let decodedaud := (b64Decode audmsg).1
  let tmpaud := L.jsonUnmarshal decodedaud
  (goEq (mapGet tmpiss "iss".toList) (mapGet tmpaud "aud".toList)).bind fun same =>
    if !same then .ret false else .ret true

/-- The function `loadsig`. -/
def loadsig (L : Lib) (sig : Str) : Outcome L.Sig :=
  let tmpsig := b64Decode sig
  if tmpsig.2 then .exit 1
  else
    match L.readSig tmpsig.1 with
    | none => .exit 1
    | some signature => .ret signature

/-! ## The Schnorr validators -/

/-- The statements of `validateschnorrassertion` after its loop (`// Verify Inner lvl`): the
signature `parts[j]` is checked over the message `parts[i]`, and the result is returned. The same
statements end `validateschnorrtrace`. -/
def schnorrInner (L : Lib) (parts : List Str) (i j : Nat) : Outcome Bool :=
  let message := parts.getD i []
  (loadsig L (parts.getD j [])).bind fun signature =>
  (string2pubkey L (parts.getD i [])).bind fun pubkey =>
  let sigresult := L.Verify message signature pubkey
  .ret sigresult

/-- The loop of `validateschnorrassertion` from the state `(i, j)`, followed by the inner-level
statements. The recursion is on `j`, which every iteration decrements; for `j = 0` the loop
condition `i+1 < j-1` is false. The value of `dasvid.Verify` in the loop body is only printed. -/
def schnorrLoop (L : Lib) (parts : List Str) : Nat → Nat → Outcome Bool
  | i, 0 => schnorrInner L parts i 0
  | i, j + 1 =>
    if i < parts.length / 2 ∧ i + 1 < (j + 1) - 1 then
      let message := join ['.'] [parts.getD i [], clean parts i (j + 1)]
      (loadsig L (parts.getD (j + 1) [])).bind fun signature =>
      (string2pubkey L (parts.getD i [])).bind fun pubkey =>
      let _printed := L.Verify message signature pubkey
      schnorrLoop L parts (i + 1) j
    else schnorrInner L parts i (j + 1)

/-- The function `validateschnorrassertion`. -/
def validateschnorrassertion (L : Lib) (token : Str) : Outcome Bool :=
  let parts := split '.' token
  schnorrLoop L parts 0 (parts.length - 1)

/-- The loop of `validateschnorrtrace` from the state `(i, j)`, followed by the inner-level
statements: as `schnorrLoop`, with the call of `checkaudlink` after `loadsig`. -/
def traceLoop (L : Lib) (parts : List Str) : Nat → Nat → Outcome Bool
  | i, 0 => schnorrInner L parts i 0
  | i, j + 1 =>
    if i < parts.length / 2 ∧ i + 1 < (j + 1) - 1 then
      let message := join ['.'] [parts.getD i [], clean parts i (j + 1)]
      (loadsig L (parts.getD (j + 1) [])).bind fun signature =>
      (checkaudlink L (parts.getD i []) (parts.getD (i + 1) [])).bind fun link =>
      if link == false then .ret false
      else
        (string2pubkey L (parts.getD i [])).bind fun pubkey =>
        let _printed := L.Verify message signature pubkey
        traceLoop L parts (i + 1) j
    else schnorrInner L parts i (j + 1)

/-- The function `validateschnorrtrace`. -/
def validateschnorrtrace (L : Lib) (token : Str) : Outcome Bool :=
  let parts := split '.' token
  traceLoop L parts 0 (parts.length - 1)

/-! ## The ECDSA validator -/

/-- The function `getkeys`. The result is the pair `(keys, err != nil)`, a nil slice being the
empty list. When the body holds no record the function returns `nil, err` with the `err` of
`ioutil.ReadAll`, which is nil at that point. -/
def getkeys (L : Lib) (message : Str) : Outcome (List Str × Bool) :=
  let decclaim := (b64Decode message).1
  let tmpkey := L.jsonUnmarshal decclaim
  let kid := mapGet tmpkey "kid".toList
  let url := "http://localhost:8888/key/".toList ++ sprintS L kid
  (L.httpGet url).bind fun resp =>
    match resp with
    | none => .ret ([], true)
    | some body =>
      let keys := splitAfter '\x7d' body
      if keys.length - 1 = 0 then .ret ([], false)
      else .ret (keys, false)

/-- The function `ParseECDSAPublicKey`, on the bytes of its string argument (the caller builds the
string from a byte slice with `fmt.Sprintf("%s", pkey)` and the function converts it back). -/
def ParseECDSAPublicKey (L : Lib) (pubPEM : Bytes) : Outcome (AnyPub L.ECPub) :=
  match L.pemDecode pubPEM with
  | none => .panic
  | some block =>
    match L.parsePKIX block with
    | none => .panic
    | some pub => .ret pub

/-- The public key that the search loop of `validateassertion` takes from the key record
`keys[z]`: `Trim`, `json.Unmarshal`, `DecodeString` of the `Pkey` field, `ParseECDSAPublicKey`
and the type assertion `finallykey.(*ecdsa.PublicKey)`. -/
def recordKey (L : Lib) (record : Str) : Outcome L.ECPub :=
  let cleankeys := trim ['\\'] record
  let tmpkey := L.jsonUnmarshal (utf8 cleankeys)
  let pkey := (b64Decode (sprintS L (mapGet tmpkey "Pkey".toList))).1
  (ParseECDSAPublicKey L pkey).bind fun finallykey =>
    match finallykey with
    | .ecdsa k => .ret k
    | .other => .panic

/-- The search loop `for (z < len(keys)-1)` of `validateassertion`, as a recursion on the records
`keys[z], ..., keys[len(keys)-2]` not tried yet. A record that verifies sets `z = len(keys)-1`,
which ends the loop; a record that does not verify makes the function return false when it is the
last one (`z == len(keys)-2`). The result `true` means that the loop has ended and the validator
goes on; the result `false` means that the validator returns false. -/
def searchKeys (L : Lib) (hash signature : Bytes) : List Str → Outcome Bool
  | [] => .ret true
  | record :: rest =>
    (recordKey L record).bind fun finallykey =>
      let verify := L.verifyASN1 finallykey hash signature
      if verify == true then .ret true
      else if rest.isEmpty then .ret false
      else searchKeys L hash signature rest

/-- The check of one layer in `validateassertion`: the hash of `message`, the decoding of the
signature segment, `getkeys` on the payload segment and the key search. The loop body and the
inner-level statements of the function are this same sequence. The result `false` means that
`validateassertion` returns false. -/
def checkLayer (L : Lib) (message payload sigseg : Str) : Outcome Bool :=
  let hash := L.sha256 (utf8 message)
  let signature := b64Decode sigseg
  if signature.2 then .ret false
  else
    (getkeys L payload).bind fun keys =>
      if keys.2 then .ret false
      else searchKeys L hash signature.1 keys.1.dropLast

/-- The loop of `validateassertion` from the state `(i, j)`, followed by the inner-level
statements. The recursion is on `j`, as in `schnorrLoop`. -/
def ecdsaLoop (L : Lib) (parts : List Str) : Nat → Nat → Outcome Bool
  | i, 0 => checkLayer L (parts.getD i []) (parts.getD i []) (parts.getD 0 [])
  | i, j + 1 =>
    if i < parts.length / 2 ∧ i + 1 < (j + 1) - 1 then
      (checkLayer L (layerMessage parts i (j + 1)) (parts.getD i []) (parts.getD (j + 1) [])).bind
        fun ok => if ok then ecdsaLoop L parts (i + 1) j else .ret false
    else checkLayer L (parts.getD i []) (parts.getD i []) (parts.getD (j + 1) [])

/-- The function `validateassertion`. -/
def validateassertion (L : Lib) (token : Str) : Outcome Bool :=
  let parts := split '.' token
  ecdsaLoop L parts 0 (parts.length - 1)

/-! ## The builders -/

/-- The function `newencode`; `none` is the return `"", err`. -/
def newencode (L : Lib) (claimset : ClaimMap) (oldmain : Str) (key : L.ECPriv) (rnd : L.Rand) :
    Option Str :=
  let cs := L.jsonMarshal claimset
  let payload := b64Encode cs
  if oldmain = [] then
    let hash := L.sha256 (utf8 payload)
    match L.signASN1 rnd key hash with
    | none => none
    | some s =>
      let sig := b64Encode s
      some (join ['.'] [payload, sig])
  else
    let hash := L.sha256 (utf8 (payload ++ ['.'] ++ oldmain))
    match L.signASN1 rnd key hash with
    | none => none
    | some s =>
      let signature := b64Encode s
      some (join ['.'] [payload, oldmain, signature])

/-- The function `newschnorrencode`; its error result is always nil, and an error of
`curve.Write` ends the process. -/
def newschnorrencode (L : Lib) (claimset : ClaimMap) (oldmain : Str) (key : L.Scalar)
    (rnd : L.Rand) : Outcome Str :=
  let cs := L.jsonMarshal claimset
  let payload := b64Encode cs
  if oldmain = [] then
    let tmpsig := L.Sign rnd payload key
    match L.writeSig tmpsig with
    | none => .exit 1
    | some sigbuf =>
      let signature := b64Encode sigbuf
      .ret (join ['.'] [payload, signature])
  else
    let message := join ['.'] [payload, oldmain]
    let tmpsig := L.Sign rnd message key
    match L.writeSig tmpsig with
    | none => .exit 1
    | some buf =>
      let signature := b64Encode buf
      .ret (join ['.'] [message, signature])

/-- The claim set of the `schgen` command: the map literal
`{"iss": pubkey2string(publicKey), "iat": issue_time, assertionkey: assertionvalue}`. -/
def schgenClaims (iss : Str) (issue_time : Int) (assertionkey assertionvalue : Str) : ClaimMap :=
  mapSet (mapSet (mapSet [] "iss".toList (.string iss)) "iat".toList (.number issue_time))
    assertionkey (.string assertionvalue)

/-- The token that the `schgen` command prints, for the key pair that `dasvid.RandomKeyPair()`
returned and the time `issue_time`. -/
def schgen (L : Lib) (privateKey : L.Scalar) (publicKey : L.Point) (issue_time : Int)
    (assertionkey assertionvalue : Str) (rnd : L.Rand) : Outcome Str :=
  (pubkey2string L publicKey).bind fun iss =>
    newschnorrencode L (schgenClaims iss issue_time assertionkey assertionvalue) [] privateKey rnd

/-! ## A small instance of the libraries

The theorems below hold for every `Lib`. To evaluate the program on concrete tokens, `toyLib`
gives each library function a small executable stand-in: a textual key-value codec with braces
for JSON, one-byte keys, and signatures that consist of the key followed by the signed bytes. -/

/-- The stand-in for `json.Unmarshal`: the text `\x7bk1=v1;k2=v2\x7d` is the map of the string
entries `k1: v1`, `k2: v2`. -/
def toyUnmarshal (data : Bytes) : ClaimMap :=
  let text : Str := (data.map fun b => Char.ofNat b.val).filter
    fun c => !(c == '\x7b' || c == '\x7d')
  (split ';' text).filterMap fun entry =>
    match split '=' entry with
    | [k, v] => some (k, JValue.string v)
    | _ => none

/-- The stand-in for `json.Marshal`: the string entries of the map, in the format that
`toyUnmarshal` reads. -/
def toyMarshal (m : ClaimMap) : Bytes :=
  utf8 ('\x7b' :: (join [';'] (m.filterMap fun e =>
    match e.2 with
    | .string v => some (e.1 ++ ['='] ++ v)
    | _ => none) ++ ['\x7d']))

/-- The stand-in libraries, with a key directory that answers every well-formed request with
`body`. A URL that holds the character `%` is not well-formed: it is what `getkeys` builds when
the payload has no string `kid` and `fmt.Sprintf` prints the bad-verb marker `%!s(...)`; then
`http.NewRequest` returns a nil request and `client.Do` panics on it. A key is one byte and is
its own public key; a signature is the key followed by the signed bytes. -/
def toyLib (body : Str) : Lib where
  Point := Byte
  Scalar := Byte
  Sig := Bytes
  ECPriv := Byte
  ECPub := Byte
  Rand := Unit
  jsonMarshal := toyMarshal
  jsonUnmarshal := toyUnmarshal
  fmtFloat := fun _ => ['0']
  sha256 := fun data => data
  signASN1 := fun _ key hash => some (key :: hash)
  verifyASN1 := fun pub hash sig => sig == pub :: hash
  pemDecode := fun data => some data
  parsePKIX := fun data =>
    match data with
    | [k] => some (.ecdsa k)
    | _ => none
  httpGet := fun url => if url.contains '%' then .panic else .ret (some body)
  Sign := fun _ message key => key :: utf8 message
  Verify := fun message sig pub => sig == pub :: utf8 message
  writePoint := fun p => some [p]
  readPoint := fun data =>
    match data with
    | [p] => some p
    | _ => none
  writeSig := fun sig => some sig
  readSig := fun data =>
    match data with
    | [] => none
    | _ :: _ => some data

/-! ## Notions the claims speak of -/

/-- The `iss` claim of a payload segment, as `checkaudlink` and `string2pubkey` read it. -/
def issClaim (L : Lib) (segment : Str) : JValue :=
  mapGet (L.jsonUnmarshal (b64Decode segment).1) "iss".toList

/-- The `aud` claim of a payload segment, as `checkaudlink` reads it. -/
def audClaim (L : Lib) (segment : Str) : JValue :=
  mapGet (L.jsonUnmarshal (b64Decode segment).1) "aud".toList

/-- A claim value of the data model: a JSON scalar or string (no array, no object). -/
def isScalar : JValue → Bool
  | .array _ => false
  | .object _ => false
  | _ => true

/-- The result of `dasvid.Verify` for the outer layer `i` of a token with segments `parts`: the
signature in segment `j` over `layerMessage parts i j` under the key of payload `i`. -/
def outerVerify (L : Lib) (parts : List Str) (i j : Nat) : Outcome Bool :=
  (loadsig L (parts.getD j [])).bind fun signature =>
  (string2pubkey L (parts.getD i [])).bind fun pubkey =>
  .ret (L.Verify (layerMessage parts i j) signature pubkey)

instance (s : Str) : Decidable (plainSegment s) := by
  unfold plainSegment; infer_instance

/-- A two-segment token of the stand-in libraries: the payload has `iss` = key 7 and `aud` =
key 9 and is signed with key 7. -/
def toyInner : Str :=
  "e2lzcz1CdzthdWQ9Q1F9.B2UybHpjejFDZHp0aGRXUTlRMUY5".toList

/-- A claim set whose `iss` is key 9 of the stand-in libraries. -/
def toyOuterClaims : ClaimMap :=
  [("iss".toList, .string "CQ".toList)]

/-- The token `newschnorrencode` builds from `toyOuterClaims` and `toyInner` with key 9. -/
def toyOuter : Str :=
  ("e2lzcz1DUX0.e2lzcz1CdzthdWQ9Q1F9.B2UybHpjejFDZHp0aGRXUTlRMUY5." ++
    "CWUybHpjejFEVVgwLmUybHpjejFDZHp0aGRXUTlRMUY5LkIyVXliSHBqZWpGRFpIcDBhR1JYVVRsUk1VWTU").toList

/-- A directory response of the stand-in libraries with two key records: key 9, then key 7. -/
def toyDirectory : Str :=
  "\x7bPkey=CQ\x7d\x7bPkey=Bw\x7d".toList

/-- A four-segment token whose outer payload has `iss` = key 7, while the payload of its inner
token `toyInner` has `aud` = key 9. -/
def toyBrokenLink : Str :=
  "e2lzcz1Cd30.".toList ++ toyInner ++ ".AAAA".toList

/-! ## The commands of `main` -/

/-- The struct `keydata`: a key record of the directory. -/
structure keydata where
  /-- The field `Kid`. -/
  Kid : Str
  /-- The field `Alg`. -/
  Alg : Str
  /-- The field `Pkey`. -/
  Pkey : Bytes
  /-- The field `Exp`. -/
  Exp : Int
  deriving DecidableEq

/-- The workload identity that `dasvid.FetchX509SVID()` returns, as far as the commands use it. -/
structure X509SVID (L : Lib) where
  /-- The string `clientSVID.ID.String()`. -/
  ID : Str
  /-- The key `clientSVID.PrivateKey`. -/
  PrivateKey : L.ECPriv
  /-- The first result of `clientSVID.Marshal()`; `none` is a non-nil error. -/
  Marshal : Option Bytes

/-- The library functions that only the commands of `main` call. -/
structure Host (L : Lib) where
  /-- The call `dasvid.IDKeyPair(seed)`. -/
  IDKeyPair : Str → L.Scalar × L.Point
  /-- The expression `curve.Point().Mul(s, curve.Point().Base())`. -/
  baseMul : L.Scalar → L.Point
  /-- The field `S` of a `dasvid.Signature`. -/
  sigS : L.Sig → L.Scalar
  /-- The string that `fmt.Sprintf("%s", b)` gives for a byte slice `b`. -/
  bytesToString : Bytes → Str
  /-- The expression `clientkey.Public().(*ecdsa.PublicKey)`. -/
  public : L.ECPriv → L.ECPub
  /-- The call `x509.MarshalPKIXPublicKey`; `none` is a non-nil error. -/
  marshalPKIX : L.ECPub → Option Bytes
  /-- The call `pem.EncodeToMemory` on a block of type `EC PUBLIC KEY`. -/
  pemEncode : Bytes → Bytes
  /-- The call `json.Marshal` on a `keydata` (the error is dropped by every caller). -/
  jsonMarshalKey : keydata → Bytes
  /-- The request `POST url` with the given body, from `http.NewRequest` to `ioutil.ReadAll`: the
  response body, or `none` when `client.Do` reports an error. -/
  httpPost : Str → Str → Option Str

/-- What a run of a command leaves behind: the assertions it printed, the key records it passed
to `addkey`, and how the process ended. -/
structure Run where
  /-- The tokens printed as generated or resulting assertion, in order. -/
  assertions : List Str
  /-- The key records passed to `addkey`, in order. -/
  stored : List Str
  /-- The end of the process: `os.Exit(code)` or a panic. -/
  ending : Outcome Unit
  deriving DecidableEq

/-- The function `addkey`; `none` is the return `"", err`. -/
def addkey {L : Lib} (H : Host L) (key : Str) : Option Str :=
  H.httpPost "http://localhost:8888/addkey".toList key

/-- The function `EncodeECDSAPublicKey`; `none` is the return `nil, err`. -/
def EncodeECDSAPublicKey {L : Lib} (H : Host L) (key : L.ECPub) : Option Bytes :=
  match H.marshalPKIX key with
  | none => none
  | some derKey => some (H.pemEncode derKey)

/-- The statement `encKey, _ := EncodeECDSAPublicKey(pubkey)` of the ECDSA commands: a nil slice
when the function reports an error. -/
def encodedKey {L : Lib} (H : Host L) (clientkey : L.ECPriv) : Bytes :=
  match EncodeECDSAPublicKey H (H.public clientkey) with
  | none => []
  | some encKey => encKey

/-- The `switch svidAsIssuer` of the ECDSA commands: the issuer string, or `os.Exit(1)` when
`clientSVID.Marshal()` fails or the mode is none of `spiffeid`, `svid`, `anonymous`. -/
def issuerFor {L : Lib} (H : Host L) (svidAsIssuer : Str) (clientSVID : X509SVID L)
    (encKey : Bytes) : Outcome Str :=
  if svidAsIssuer = "spiffeid".toList then .ret clientSVID.ID
  else if svidAsIssuer = "svid".toList then
    match clientSVID.Marshal with
    | none => .exit 1
    | some tmp => .ret (H.bytesToString tmp)
  else if svidAsIssuer = "anonymous".toList then .ret (H.bytesToString encKey)
  else .exit 1

/-- The claim set of the ECDSA commands: the map literal
`{"iss": issuer, "iat": issue_time, "kid": kid, assertionkey: assertionvalue}`. -/
def ecdsaClaims (issuer : Str) (issue_time : Int) (kid assertionkey assertionvalue : Str) :
    ClaimMap :=
  mapSet (mapSet (mapSet (mapSet [] "iss".toList (.string issuer)) "iat".toList
    (.number issue_time)) "kid".toList (.string kid)) assertionkey (.string assertionvalue)

/-- The key record that the ECDSA commands pass to `addkey`: the JSON of
`keydata{Kid: kid, Alg: "EC256", Pkey: encKey, Exp: exp}` as a string. -/
def keyRecord {L : Lib} (H : Host L) (kid : Str) (encKey : Bytes) (exp : Int) : Str :=
  H.bytesToString (H.jsonMarshalKey ⟨kid, "EC256".toList, encKey, exp⟩)

/-- The command `ecdsagen`, for the identity that `FetchX509SVID` returned, the issue time and
the expiry time read from the clock. Both results of `addkey` lead to `os.Exit(1)`. -/
def ecdsagen {L : Lib} (H : Host L) (clientSVID : X509SVID L) (issue_time exp : Int)
    (assertionkey assertionvalue svidAsIssuer : Str) (rnd : L.Rand) : Run :=
  let clientID := clientSVID.ID
  let clientkey := clientSVID.PrivateKey
  let encKey := encodedKey H clientkey
  match issuerFor H svidAsIssuer clientSVID encKey with
  | .exit c => ⟨[], [], .exit c⟩
  | .panic => ⟨[], [], .panic⟩
  | .ret issuer =>
    let kid := b64Encode (utf8 clientID)
    let assertionclaims := ecdsaClaims issuer issue_time kid assertionkey assertionvalue
    match newencode L assertionclaims [] clientkey rnd with
    | none => ⟨[], [], .exit 1⟩
    | some assertion =>
      let key := keyRecord H kid encKey exp
      match addkey H key with
      | none => ⟨[assertion], [key], .exit 1⟩
      | some _ => ⟨[assertion], [key], .exit 1⟩

/-- The command `append`. The prior token `mainvalue` is validated first; the claim set, the
call of `newencode` and the call of `addkey` follow only when `validateassertion` returned
true. -/
def append {L : Lib} (H : Host L) (clientSVID : X509SVID L) (issue_time exp : Int)
    (mainvalue assertionkey assertionvalue svidAsIssuer : Str) (rnd : L.Rand) : Run :=
  let clientID := clientSVID.ID
  let clientkey := clientSVID.PrivateKey
  let encKey := encodedKey H clientkey
  match validateassertion L mainvalue with
  | .exit c => ⟨[], [], .exit c⟩
  | .panic => ⟨[], [], .panic⟩
  | .ret valid =>
    if valid != true then ⟨[], [], .exit 1⟩
    else
      match issuerFor H svidAsIssuer clientSVID encKey with
      | .exit c => ⟨[], [], .exit c⟩
      | .panic => ⟨[], [], .panic⟩
      | .ret issuer =>
        let kid := b64Encode (utf8 clientID)
        let tokenclaims := ecdsaClaims issuer issue_time kid assertionkey assertionvalue
        match newencode L tokenclaims mainvalue clientkey rnd with
        | none => ⟨[], [], .exit 1⟩
        | some assertion =>
          let key := keyRecord H kid encKey exp
          match addkey H key with
          | none => ⟨[assertion], [key], .exit 1⟩
          | some _ => ⟨[assertion], [key], .exit 1⟩

/-- The loop `for i < manytimes` of the command `multiappend` and the `os.Exit(1)` after it, as a
recursion on the number `manytimes - i` of iterations left. Iteration `i` fetches the identity
`svidAt i`, reads the times `timeAt i` and `expAt i` and signs with the randomness `rndAt i`; the
claim key and value get the decimal digits of `i` appended. The prior token is not validated, and
the result of `addkey` is dropped. -/
def multiappendLoop {L : Lib} (H : Host L) (svidAt : Nat → X509SVID L) (timeAt expAt : Nat → Int)
    (rndAt : Nat → L.Rand) (assertionkey assertionvalue svidAsIssuer : Str) :
    Nat → Nat → Str → Run
  | 0, _, _ => ⟨[], [], .exit 1⟩
  | left + 1, i, mainvalue =>
    let issue_time := timeAt i
    let clientSVID := svidAt i
    let clientID := clientSVID.ID
    let clientkey := clientSVID.PrivateKey
    let encKey := encodedKey H clientkey
    match issuerFor H svidAsIssuer clientSVID encKey with
    | .exit c => ⟨[], [], .exit c⟩
    | .panic => ⟨[], [], .panic⟩
    | .ret issuer =>
      let kid := b64Encode (utf8 clientID)
      let tokenclaims := ecdsaClaims issuer issue_time kid (assertionkey ++ (Nat.repr i).toList)
        (assertionvalue ++ (Nat.repr i).toList)
      match newencode L tokenclaims mainvalue clientkey (rndAt i) with
      | none => ⟨[], [], .exit 1⟩
      | some assertion =>
        let key := keyRecord H kid encKey (expAt i)
        let _savekey := addkey H key
        let rest := multiappendLoop H svidAt timeAt expAt rndAt assertionkey assertionvalue
          svidAsIssuer left (i + 1) assertion
        ⟨assertion :: rest.assertions, key :: rest.stored, rest.ending⟩

/-- The command `multiappend`; `manytimes` is the result of `strconv.Atoi(os.Args[5])`. -/
def multiappend {L : Lib} (H : Host L) (svidAt : Nat → X509SVID L) (timeAt expAt : Nat → Int)
    (rndAt : Nat → L.Rand) (mainvalue assertionkey assertionvalue : Str) (manytimes : Int)
    (svidAsIssuer : Str) : Run :=
  multiappendLoop H svidAt timeAt expAt rndAt assertionkey assertionvalue svidAsIssuer
    manytimes.toNat 0 mainvalue

/-- The token that the command `traceadd` prints; the command ends with `os.Exit(1)` without
printing a token when the public key of `seed` is not the `aud` claim of the first segment of
`oldmain`, compared as the Go values `pubkey2string(publicKey) != tmpkey["aud"]`. -/
def traceadd {L : Lib} (H : Host L) (oldmain seed nextseed : Str) (issue_time : Int)
    (rnd : L.Rand) : Outcome Str :=
  let privateKey := (H.IDKeyPair seed).1
  let publicKey := (H.IDKeyPair seed).2
  let parts := split '.' oldmain
  let decodedpart := (b64Decode (parts.getD 0 [])).1
  let tmpkey := L.jsonUnmarshal decodedpart
  (pubkey2string L publicKey).bind fun own =>
    if JValue.string own ≠ mapGet tmpkey "aud".toList then .exit 1
    else
      let nextpublicKey := (H.IDKeyPair nextseed).2
      (pubkey2string L publicKey).bind fun iss =>
      (pubkey2string L nextpublicKey).bind fun aud =>
        let tokenclaims := mapSet (mapSet (mapSet [] "iss".toList (.string iss)) "iat".toList
          (.number issue_time)) "aud".toList (.string aud)
        newschnorrencode L tokenclaims oldmain privateKey rnd

/-- The private key of the command `concatenate`: the field `S` of the signature read from
`parts[1]` of the prior token. Indexing a one-segment token at 1 panics; the error of
`DecodeString` is dropped; an error of `curve.Read` ends the process. -/
def concatenateKey {L : Lib} (H : Host L) (oldmain : Str) : Outcome L.Scalar :=
  let parts := split '.' oldmain
  match parts.get? 1 with
  | none => .panic
  | some segment =>
    let tmpsig := (b64Decode segment).1
    match L.readSig tmpsig with
    | none => .exit 1
    | some origsignature => .ret (H.sigS origsignature)

/-- The token that the command `concatenate` prints. -/
def concatenate {L : Lib} (H : Host L) (oldmain assertionkey assertionvalue : Str)
    (issue_time : Int) (rnd : L.Rand) : Outcome Str :=
  (concatenateKey H oldmain).bind fun privateKey =>
    let publicKey := H.baseMul privateKey
    (pubkey2string L publicKey).bind fun issuer =>
      let assertionclaims := schgenClaims issuer issue_time assertionkey assertionvalue
      newschnorrencode L assertionclaims oldmain privateKey rnd

/-- The chain of tokens of `newschnorrencode`: the token `token` extended once for every entry
of the list, each entry giving the claim set, the key and the randomness of one call. -/
def extendSchnorr (L : Lib) : Str → List (ClaimMap × L.Scalar × L.Rand) → Outcome Str
  | token, [] => .ret token
  | token, step :: rest =>
    (newschnorrencode L step.1 token step.2.1 step.2.2).bind fun next =>
      extendSchnorr L next rest

/-- The chain of tokens of `newencode`, as `extendSchnorr`. -/
def extendEcdsa (L : Lib) : Str → List (ClaimMap × L.ECPriv × L.Rand) → Option Str
  | token, [] => some token
  | token, step :: rest =>
    match newencode L step.1 token step.2.1 step.2.2 with
    | none => none
    | some next => extendEcdsa L next rest

/-- The stand-in for the functions of `Host`: the key pair of a seed is the first byte of the
seed, twice; the scalar `S` of a signature is its first byte; a key record is written in the
format that `toyUnmarshal` reads. -/
def toyHost (body : Str) : Host (toyLib body) where
  IDKeyPair := fun seed => ((utf8 seed).headD 0, (utf8 seed).headD 0)
  baseMul := fun s => s
  sigS := fun sig => sig.headD 0
  bytesToString := fun data => data.map fun b => Char.ofNat b.val
  public := fun k => k
  marshalPKIX := fun k => some [k]
  pemEncode := fun der => der
  jsonMarshalKey := fun key =>
    utf8 ("\x7bKid=".toList ++ key.Kid ++ ";Pkey=".toList ++ b64Encode key.Pkey ++ ['\x7d'])
  httpPost := fun _ _ => some []

/-- The stand-in identity: the workload `wl` with key 7. -/
def toySVID (body : Str) : X509SVID (toyLib body) where
  ID := "wl".toList
  PrivateKey := (7 : Byte)
  Marshal := some (utf8 "cert".toList)

/-! ## Printing, verification commands and the configuration file -/

/-- One line that `printtoken` writes. -/
inductive Line where
  /-- The line `Total parts:  n`. -/
  | total (n : Nat)
  /-- The text `Invalid number of parts!`. -/
  | invalid
  /-- The line `Claim     [index]	: decoded`. -/
  | claim (index : Nat) (decoded : Bytes)
  /-- The line `Signature [index]	: segment`. -/
  | signature (index : Nat) (segment : Str)
  deriving DecidableEq

/-- The loop `for (i < len(parts)/2)` of `printtoken`, as a recursion on the number of
iterations left. -/
def printClaims (parts : List Str) : Nat → Nat → List Line
  | 0, _ => []
  | left + 1, i =>
    let dectmp := (b64Decode (parts.getD i [])).1
    Line.claim i dectmp :: printClaims parts left (i + 1)

/-- The loop `for (j < len(parts))` of `printtoken`, as a recursion on the number of iterations
left. -/
def printSignatures (parts : List Str) : Nat → Nat → List Line
  | 0, _ => []
  | left + 1, j => Line.signature j (parts.getD j []) :: printSignatures parts left (j + 1)

/-- The function `printtoken`: the lines it writes, and whether it returns or ends the process
with `os.Exit(1)`. -/
def printtoken (token : Str) : List Line × Outcome Unit :=
  let parts := split '.' token
  if parts.length < 2 then ([Line.total parts.length, Line.invalid], .exit 1)
  else if parts.length < 3 then
    let dectmp := (b64Decode (parts.getD 0 [])).1
    ([Line.total parts.length, Line.claim 0 dectmp, Line.signature 1 (parts.getD 1 [])], .exit 1)
  else
    (Line.total parts.length ::
      (printClaims parts (parts.length / 2) 0 ++
        printSignatures parts (parts.length - parts.length / 2) (parts.length / 2)), .ret ())

/-- The command `print`: `printtoken(token)` followed by `os.Exit(1)`. -/
def print (token : Str) : List Line × Outcome Unit :=
  ((printtoken token).1, (printtoken token).2.bind fun _ => .exit 1)

/-- The command `ecdsaver`: the result of `validateassertion` is dropped, then `os.Exit(1)`. -/
def ecdsaver (L : Lib) (assertion : Str) : Outcome Unit :=
  (validateassertion L assertion).bind fun _ => .exit 1

/-- The command `schver`: the result of `validateschnorrassertion` is dropped, then
`os.Exit(1)`. -/
def schver (L : Lib) (assertion : Str) : Outcome Unit :=
  (validateschnorrassertion L assertion).bind fun _ => .exit 1

/-- The command `tracever`: the result of `validateschnorrtrace` is dropped, then
`os.Exit(1)`. -/
def tracever (L : Lib) (assertion : Str) : Outcome Unit :=
  (validateschnorrtrace L assertion).bind fun _ => .exit 1

/-- The pair that the command `schkeypair` prints for the argument vector `args` (`os.Args`):
the private key and `pubkey2string` of the public key of `dasvid.IDKeyPair(os.Args[1])`. -/
def schkeypair {L : Lib} (H : Host L) (args : List Str) : Outcome (L.Scalar × Str) :=
  match args.get? 1 with
  | none => .panic
  | some seed =>
    let privateKey := (H.IDKeyPair seed).1
    let publicKey := (H.IDKeyPair seed).2
    (pubkey2string L publicKey).bind fun text => .ret (privateKey, text)

/-- The loop `for lookInFile.Scan()` of `setEnvVariable` over the lines the scanner yields: the
calls of `os.Setenv(key, value)` it makes, in order. The index expression `parts[1]` panics for a
line that holds no `=`. -/
def scanConfig (env : Str) : List Str → Outcome (List (Str × Str))
  | [] => .ret []
  | text :: rest =>
    let parts := split '=' text
    match parts.get? 0, parts.get? 1 with
    | some key, some value =>
      (scanConfig env rest).bind fun later =>
        if key = env then .ret ((key, value) :: later) else .ret later
    | _, _ => .panic

/-- The function `setEnvVariable`, for the lines that the scanner yields from `.cfg` (none when
the file cannot be opened): the calls of `os.Setenv` it makes, in order. -/
def setEnvVariable (env current : Str) (lines : List Str) : Outcome (List (Str × Str)) :=
  if current ≠ [] then .ret []
  else scanConfig env lines

/-- The `Exp` field of a key record, as `json.Unmarshal` gives it for the record text that the
search loop of `validateassertion` decodes. The loop itself never reads it. -/
def recordExp (L : Lib) (record : Str) : JValue :=
  mapGet (L.jsonUnmarshal (utf8 (trim ['\\'] record))) "Exp".toList

/-- What `validateassertion` does with one layer, for the order of the layers: the index of the
payload, the index of the signature, and whether `getkeys` was called for the payload. -/
structure LayerEvent where
  /-- The index `i` of the payload segment. -/
  payload : Nat
  /-- The index `j` of the signature segment. -/
  signature : Nat
  /-- Whether `getkeys(parts[i])` was called: it is, unless the signature segment does not
  decode. -/
  fetched : Bool
  deriving DecidableEq

/-- The event of the layer `(i, j)`. -/
def layerEvent (parts : List Str) (i j : Nat) : LayerEvent :=
  ⟨i, j, !(b64Decode (parts.getD j [])).2⟩

/-- The loop of `validateassertion` as `ecdsaLoop`, together with the layers it examines, in the
order in which it examines them. -/
def ecdsaLoopLog (L : Lib) (parts : List Str) : Nat → Nat → Outcome Bool × List LayerEvent
  | i, 0 =>
    (checkLayer L (parts.getD i []) (parts.getD i []) (parts.getD 0 []), [layerEvent parts i 0])
  | i, j + 1 =>
    if i < parts.length / 2 ∧ i + 1 < (j + 1) - 1 then
      match checkLayer L (layerMessage parts i (j + 1)) (parts.getD i []) (parts.getD (j + 1) []) with
      | .ret true =>
        let rest := ecdsaLoopLog L parts (i + 1) j
        (rest.1, layerEvent parts i (j + 1) :: rest.2)
      | .ret false => (.ret false, [layerEvent parts i (j + 1)])
      | .exit c => (.exit c, [layerEvent parts i (j + 1)])
      | .panic => (.panic, [layerEvent parts i (j + 1)])
    else
      (checkLayer L (parts.getD i []) (parts.getD i []) (parts.getD (j + 1) []),
        [layerEvent parts i (j + 1)])

/-- The check of the layer `(i, j)` as the loop of `validateassertion` performs it: over
`layerMessage` while the loop condition holds, over the payload alone at the inner level. -/
def layerResult (L : Lib) (parts : List Str) (i j : Nat) : Outcome Bool :=
  if i < parts.length / 2 ∧ i + 1 < j - 1 then
    checkLayer L (layerMessage parts i j) (parts.getD i []) (parts.getD j [])
  else checkLayer L (parts.getD i []) (parts.getD i []) (parts.getD j [])

/-- The digits of a decimal numeral, as a number. -/
def natOfDigits (digits : Str) : Nat :=
  digits.foldl (fun n c => 10 * n + (c.toNat - 48)) 0

/-- The stand-in for `json.Unmarshal` on key records: as `toyUnmarshal`, but the entry `Exp` is
a number. -/
def toyUnmarshalExp (data : Bytes) : ClaimMap :=
  (toyUnmarshal data).map fun e =>
    match e.2 with
    | .string v => if e.1 = "Exp".toList then (e.1, JValue.number (natOfDigits v)) else e
    | _ => e

/-- The stand-in libraries with numeric `Exp` entries. -/
def toyLibExp (body : Str) : Lib :=
  { toyLib body with jsonUnmarshal := toyUnmarshalExp }

/-- A directory response with one record of key 7 that expired at time 0. -/
def toyExpired : Str :=
  "\x7bPkey=Bw;Exp=0\x7d".toList

/-! ## Lemmas on the string functions -/

theorem split_ne_nil (sep : Char) (s : Str) : split sep s ≠ [] := by
  induction s with
  | nil => simp [split]
  | cons c cs ih =>
    simp only [split]
    split_ifs
    · simp
    · cases h : split sep cs <;> simp

theorem split_append_sep (sep : Char) (p rest : Str) (hp : sep ∉ p) :
    split sep (p ++ sep :: rest) = p :: split sep rest := by
  induction p with
  | nil => simp [split]
  | cons c p ih =>
    have hc : c ≠ sep := fun h => hp (by simp [h])
    have hp2 : sep ∉ p := fun h => hp (by simp [h])
    simp [split, hc, ih hp2]

theorem split_of_not_mem (sep : Char) (p : Str) (hp : sep ∉ p) : split sep p = [p] := by
  induction p with
  | nil => simp [split]
  | cons c p ih =>
    have hc : c ≠ sep := fun h => hp (by simp [h])
    have hp2 : sep ∉ p := fun h => hp (by simp [h])
    simp [split, hc, ih hp2]

theorem split_append_last (sep : Char) (t s : Str) (hs : sep ∉ s) :
    split sep (t ++ sep :: s) = split sep t ++ [s] := by
  induction t with
  | nil => simp [split, split_of_not_mem sep s hs]
  | cons c t ih =>
    by_cases hc : c = sep
    · simp [split, hc, ih]
    · have hne := split_ne_nil sep t
      cases hsp : split sep t with
      | nil => exact absurd hsp hne
      | cons x xs => simp [split, hc, ih, hsp]

/-- Splitting `p.t.s` when neither `p` nor `s` holds the separator. -/
theorem split_wrap (sep : Char) (p t s : Str) (hp : sep ∉ p) (hs : sep ∉ s) :
    split sep (p ++ sep :: (t ++ sep :: s)) = p :: (split sep t ++ [s]) := by
  rw [split_append_sep sep p _ hp, split_append_last sep t s hs]

theorem join_cons_cons (sep : Str) (a b : Str) (rest : List Str) :
    join sep (a :: b :: rest) = a ++ sep ++ join sep (b :: rest) := rfl

theorem join_head_cons (sep : Str) (c : Char) (x : Str) (xs : List Str) :
    join sep ((c :: x) :: xs) = c :: join sep (x :: xs) := by
  cases xs <;> simp [join]

theorem join_split (sep : Char) (s : Str) : join [sep] (split sep s) = s := by
  induction s with
  | nil => simp [split, join]
  | cons c cs ih =>
    have hne := split_ne_nil sep cs
    cases hsp : split sep cs with
    | nil => exact absurd hsp hne
    | cons x xs =>
      rw [hsp] at ih
      by_cases hc : c = sep
      · simp [split, hc, hsp, join_cons_cons, ih]
      · simp [split, hc, hsp, join_head_cons, ih]

theorem mem_join (sep : Str) (xs : List Str) (c : Char) (h : c ∈ join sep xs) :
    c ∈ sep ∨ ∃ x ∈ xs, c ∈ x := by
  induction xs with
  | nil => simp [join] at h
  | cons a rest ih =>
    cases rest with
    | nil => exact Or.inr ⟨a, by simp, by simpa [join] using h⟩
    | cons b rest =>
      rw [join_cons_cons] at h
      simp only [List.mem_append] at h
      rcases h with (h | h) | h
      · exact Or.inr ⟨a, by simp, h⟩
      · exact Or.inl h
      · rcases ih h with h | ⟨x, hx, hc⟩
        · exact Or.inl h
        · exact Or.inr ⟨x, List.mem_cons_of_mem _ hx, hc⟩

theorem fields_word (x rest : Str) (hne : x ≠ []) (hx : ∀ c ∈ x, isSpace c = false) :
    fields (x ++ ' ' :: rest) = x :: fields rest := by
  induction x with
  | nil => exact absurd rfl hne
  | cons c x ih =>
    have hc : isSpace c = false := hx c (by simp)
    cases x with
    | nil =>
      have hsp : isSpace ' ' = true := by decide
      simp [fields, hc, hsp]
    | cons d x =>
      have hd : isSpace d = false := hx d (by simp)
      have ih2 := ih (by simp) (fun e he => hx e (List.mem_cons_of_mem _ he))
      simp only [List.cons_append] at ih2 ⊢
      rw [fields]
      simp [hc, hd, ih2]

theorem fields_single (x : Str) (hne : x ≠ []) (hx : ∀ c ∈ x, isSpace c = false) :
    fields x = [x] := by
  induction x with
  | nil => exact absurd rfl hne
  | cons c x ih =>
    have hc : isSpace c = false := hx c (by simp)
    cases x with
    | nil => simp [fields, hc]
    | cons d x =>
      have hd : isSpace d = false := hx d (by simp)
      have ih2 := ih (by simp) (fun e he => hx e (List.mem_cons_of_mem _ he))
      rw [fields]
      simp [hc, hd, ih2]

theorem fields_join (xs : List Str) (h : ∀ x ∈ xs, plainSegment x) :
    fields (join [' '] xs) = xs := by
  induction xs with
  | nil => simp [join, fields]
  | cons a rest ih =>
    have ha := h a (by simp)
    have hrest : ∀ x ∈ rest, plainSegment x := fun x hx => h x (List.mem_cons_of_mem _ hx)
    cases rest with
    | nil => simpa [join] using fields_single a ha.1 (fun c hc => (ha.2 c hc).1)
    | cons b rest =>
      rw [join_cons_cons]
      simp only [List.append_assoc, List.singleton_append]
      rw [fields_word a _ ha.1 (fun c hc => (ha.2 c hc).1), ih hrest]

theorem dropWhile_append_of_all_false (p : Char → Bool) (t r : Str) (ht : t ≠ [])
    (h : ∀ c ∈ t, p c = false) : (t ++ r).dropWhile p = t ++ r := by
  cases t with
  | nil => exact absurd rfl ht
  | cons c t => simp [List.dropWhile, h c (by simp)]

theorem trim_brackets (t : Str) (h : ∀ c ∈ t, c ≠ '[' ∧ c ≠ ']') :
    trim ['[', ']'] ('[' :: (t ++ [']'])) = t := by
  have hp : ∀ c ∈ t, (['[', ']'] : Str).contains c = false := by
    intro c hc
    have h1 : (c == '[') = false := by simpa using (h c hc).1
    have h2 : (c == ']') = false := by simpa using (h c hc).2
    simp [List.contains, List.elem, h1, h2]
  by_cases ht : t = []
  · subst ht
    decide
  · have hrev : t.reverse ≠ [] := by simpa using ht
    have h1 : trimRight ['[', ']'] ('[' :: (t ++ [']'])) = '[' :: t := by
      unfold trimRight
      have : ('[' :: (t ++ [']'])).reverse = ']' :: (t.reverse ++ ['[']) := by simp
      rw [this, List.dropWhile_cons]
      have hb : (['[', ']'] : Str).contains ']' = true := by decide
      simp only [hb, if_true]
      rw [dropWhile_append_of_all_false _ _ _ hrev (fun c hc => hp c (by simpa using hc))]
      simp
    unfold trim
    rw [h1]
    unfold trimLeft
    rw [List.dropWhile_cons]
    have hb : (['[', ']'] : Str).contains '[' = true := by decide
    simp only [hb, if_true]
    simpa using dropWhile_append_of_all_false _ t [] ht hp

/-- On plain segments, the `clean` expression of the validators is `strings.Join(xs, ".")`. -/
theorem clean_eq_join (parts : List Str) (i j : Nat)
    (h : ∀ x ∈ slice parts (i + 1) j, plainSegment x) :
    clean parts i j = join ['.'] (slice parts (i + 1) j) := by
  unfold clean sprintStrings
  have hb : ∀ c ∈ join [' '] (slice parts (i + 1) j), c ≠ '[' ∧ c ≠ ']' := by
    intro c hc
    rcases mem_join _ _ _ hc with hsp | ⟨x, hx, hcx⟩
    · have : c = ' ' := by simpa using hsp
      subst this
      decide
    · exact (((h x hx).2) c hcx).2
  rw [trim_brackets _ hb, fields_join _ h]

/-! ## Lemmas on base64 -/

theorem b64Char_mem (n : Nat) : b64Char n ∈ b64Alphabet := by
  unfold b64Char
  by_cases h : n < b64Alphabet.length
  · rw [List.getD_eq_getElem _ _ h]
    exact List.getElem_mem h
  · rw [List.getD_eq_default _ _ (Nat.le_of_not_lt h)]
    decide

theorem b64Alphabet_plain :
    ∀ c ∈ b64Alphabet, c ≠ '.' ∧ isSpace c = false ∧ c ≠ '[' ∧ c ≠ ']' ∧
      (!(c == '\n' || c == '\r')) = true := by
  decide

theorem b64Encode_mem (data : Bytes) : ∀ c ∈ b64Encode data, c ∈ b64Alphabet := by
  induction data using b64Encode.induct with
  | case1 => simp [b64Encode]
  | case2 a =>
    intro c hc
    simp only [b64Encode, List.mem_cons, List.mem_singleton, List.not_mem_nil, or_false] at hc
    rcases hc with h | h <;> subst h <;> exact b64Char_mem _
  | case3 a b =>
    intro c hc
    simp only [b64Encode, List.mem_cons, List.mem_singleton, List.not_mem_nil, or_false] at hc
    rcases hc with h | h | h <;> subst h <;> exact b64Char_mem _
  | case4 a b d rest ih =>
    intro c hc
    simp only [b64Encode, List.mem_cons] at hc
    rcases hc with h | h | h | h | h
    · subst h; exact b64Char_mem _
    · subst h; exact b64Char_mem _
    · subst h; exact b64Char_mem _
    · subst h; exact b64Char_mem _
    · exact ih c h

/-- An encoded segment holds no dot. -/
theorem b64Encode_no_dot (data : Bytes) : '.' ∉ b64Encode data := fun h =>
  (b64Alphabet_plain _ (b64Encode_mem data _ h)).1 rfl

theorem b64Val_b64Char : ∀ n, n < 64 → b64Val (b64Char n) = some n := by
  decide

theorem b64DecodeQuanta_encode (data : Bytes) : b64DecodeQuanta (b64Encode data) = (data, false) := by
  induction data using b64Encode.induct with
  | case1 => simp [b64Encode, b64DecodeQuanta]
  | case2 a =>
    have ha := a.isLt
    simp only [b64Encode, b64DecodeQuanta]
    rw [b64Val_b64Char _ (by omega), b64Val_b64Char _ (by omega)]
    simp only [Prod.mk.injEq, and_true, List.cons.injEq]
    exact Fin.ext (by simp [Fin.ofNat]; omega)
  | case3 a b =>
    have ha := a.isLt
    have hb := b.isLt
    simp only [b64Encode, b64DecodeQuanta]
    rw [b64Val_b64Char _ (by omega), b64Val_b64Char _ (by omega), b64Val_b64Char _ (by omega)]
    simp only [Prod.mk.injEq, and_true, List.cons.injEq]
    exact ⟨Fin.ext (by simp [Fin.ofNat]; omega), Fin.ext (by simp [Fin.ofNat]; omega)⟩
  | case4 a b d rest ih =>
    have ha := a.isLt
    have hb := b.isLt
    have hd := d.isLt
    simp only [b64Encode, b64DecodeQuanta]
    rw [b64Val_b64Char _ (by omega), b64Val_b64Char _ (by omega), b64Val_b64Char _ (by omega),
      b64Val_b64Char _ (by omega)]
    simp only [ih, Prod.mk.injEq, and_true, List.cons.injEq]
    exact ⟨Fin.ext (by simp [Fin.ofNat]; omega), Fin.ext (by simp [Fin.ofNat]; omega),
      Fin.ext (by simp [Fin.ofNat]; omega)⟩

/-- Decoding an encoded byte slice gives the slice back, with a nil error. -/
theorem b64Decode_encode (data : Bytes) : b64Decode (b64Encode data) = (data, false) := by
  unfold b64Decode
  have hf : (b64Encode data).filter (fun c => !(c == '\n' || c == '\r')) = b64Encode data := by
    rw [List.filter_eq_self]
    intro c hc
    exact (b64Alphabet_plain _ (b64Encode_mem data _ hc)).2.2.2.2
  rw [hf, b64DecodeQuanta_encode]

/-! ## Lemmas on outcomes -/

@[simp] theorem bind_ret {α β : Type} (a : α) (f : α → Outcome β) :
    (Outcome.ret a).bind f = f a := rfl

@[simp] theorem bind_exit {α β : Type} (c : Nat) (f : α → Outcome β) :
    (Outcome.exit c : Outcome α).bind f = .exit c := rfl

@[simp] theorem bind_panic {α β : Type} (f : α → Outcome β) :
    (Outcome.panic : Outcome α).bind f = .panic := rfl

theorem bind_eq_ret {α β : Type} (x : Outcome α) (f : α → Outcome β) (b : β) :
    x.bind f = .ret b ↔ ∃ a, x = .ret a ∧ f a = .ret b := by
  cases x <;> simp

/-! ## The claims -/

/-- Claim C1, evaluated on the code: the token `P0.P1.S1.AAAA` has four segments, its inner token
`P1.S1` is validly signed, and its outer signature `AAAA` does not verify over
`P0.P1.S1` under the key of `P0`; nevertheless `validateschnorrassertion` and
`validateschnorrtrace` both return true, because the loop only prints the result of
`dasvid.Verify`. -/
theorem C1_outer_signature_failure_ignored :
    outerVerify (toyLib [])
        (split '.' "e2lzcz1DUX0.e2lzcz1CdzthdWQ9Q1F9.B2UybHpjejFDZHp0aGRXUTlRMUY5.AAAA".toList) 0 3
      = .ret false ∧
    validateschnorrassertion (toyLib [])
        "e2lzcz1DUX0.e2lzcz1CdzthdWQ9Q1F9.B2UybHpjejFDZHp0aGRXUTlRMUY5.AAAA".toList
      = .ret true ∧
    validateschnorrtrace (toyLib [])
        "e2lzcz1DUX0.e2lzcz1CdzthdWQ9Q1F9.B2UybHpjejFDZHp0aGRXUTlRMUY5.AAAA".toList
      = .ret true := by
  decide

/-- Claim C2, evaluated on the code: the payload `e2tpZD1rfQ` holds the string `kid` = `k`, so
`getkeys` requests the URL `http://localhost:8888/key/k`. When the key directory answers with an
empty body (no key record), `getkeys` returns a nil slice with a nil error, the search loop of
`validateassertion` does not run, and the two-segment token `e2tpZD1rfQ.AA` is reported valid,
although no key verifies its signature. -/
theorem C2_no_key_record_accepted :
    mapGet ((toyLib []).jsonUnmarshal (b64Decode "e2tpZD1rfQ".toList).1) "kid".toList =
      .string "k".toList ∧
    (toyLib []).httpGet "http://localhost:8888/key/k".toList = .ret (some []) ∧
    getkeys (toyLib []) "e2tpZD1rfQ".toList = .ret ([], false) ∧
    validateassertion (toyLib []) "e2tpZD1rfQ.AA".toList = .ret true ∧
    (∀ k : Byte, (toyLib []).verifyASN1 k ((toyLib []).sha256 (utf8 "e2tpZD1rfQ".toList))
      (b64Decode "AA".toList).1 = false) := by
  refine ⟨by decide, rfl, by decide, by decide, fun k => ?_⟩
  have hsig : (b64Decode "AA".toList).1 = [(0 : Byte)] := by decide
  rw [hsig]
  show ([(0 : Byte)] == k :: utf8 "e2tpZD1rfQ".toList) = false
  have hu : utf8 "e2tpZD1rfQ".toList = (101 : Byte) :: (utf8 "e2tpZD1rfQ".toList).tail := by
    decide
  rw [hu]
  simp

theorem slice_wrap (p s : Str) (xs : List Str) :
    slice (p :: (xs ++ [s])) 1 (xs.length + 1) = xs := by
  simp [slice]

theorem layerMessage_wrap (p t s : Str) (hseg : ∀ x ∈ split '.' t, plainSegment x) :
    layerMessage (p :: (split '.' t ++ [s])) 0 ((p :: (split '.' t ++ [s])).length - 1)
      = p ++ ['.'] ++ t := by
  have hlen : (p :: (split '.' t ++ [s])).length - 1 = (split '.' t).length + 1 := by simp
  rw [hlen]
  unfold layerMessage
  rw [clean_eq_join _ _ _ (by rw [slice_wrap]; exact hseg), slice_wrap, join_split]
  simp

theorem lookup_filter_ne (m : ClaimMap) (k k2 : Str) (h : k2 ≠ k) :
    (m.filter (fun e => e.1 != k)).lookup k2 = m.lookup k2 := by
  induction m with
  | nil => rfl
  | cons e m ih =>
    obtain ⟨a, v⟩ := e
    by_cases ha : a = k
    · subst ha
      have h1 : (k2 == a) = false := by simpa using h
      simp [List.filter, List.lookup, h1, ih]
    · have h1 : (a != k) = true := by simpa using ha
      simp only [List.filter, h1, List.lookup]
      rw [ih]

theorem mapGet_mapSet_ne (m : ClaimMap) (k k2 : Str) (v : JValue) (h : k2 ≠ k) :
    mapGet (mapSet m k v) k2 = mapGet m k2 := by
  have h1 : (k2 == k) = false := by simpa using h
  unfold mapGet mapSet
  simp only [List.lookup, h1]
  rw [lookup_filter_ne m k k2 h]

theorem mapGet_mapSet_self (m : ClaimMap) (k : Str) (v : JValue) :
    mapGet (mapSet m k v) k = v := by
  unfold mapGet mapSet
  simp [List.lookup]

theorem schgenClaims_iss (iss : Str) (t : Int) (k v : Str) (hk : k ≠ "iss".toList) :
    mapGet (schgenClaims iss t k v) "iss".toList = .string iss := by
  unfold schgenClaims
  rw [mapGet_mapSet_ne _ _ _ _ (Ne.symm hk), mapGet_mapSet_ne _ _ _ _ (by decide),
    mapGet_mapSet_self]

theorem split_two (p s : Str) (hp : '.' ∉ p) (hs : '.' ∉ s) :
    split '.' (p ++ ['.'] ++ s) = [p, s] := by
  have := split_append_sep '.' p s hp
  rw [split_of_not_mem '.' s hs] at this
  simpa using this

theorem loadsig_encode (L : Lib) (buf : Bytes) (s : L.Sig) (h : L.readSig buf = some s) :
    loadsig L (b64Encode buf) = .ret s := by
  unfold loadsig
  simp [b64Decode_encode, h]

theorem issClaim_encode (L : Lib) (m : ClaimMap) :
    issClaim L (b64Encode (L.jsonMarshal m)) =
      mapGet (L.jsonUnmarshal (L.jsonMarshal m)) "iss".toList := by
  unfold issClaim
  rw [b64Decode_encode]

theorem string2pubkey_of_iss (L : Lib) (seg : Str) (pbuf : Bytes) (pub : L.Point)
    (hiss : issClaim L seg = .string (b64Encode pbuf)) (hr : L.readPoint pbuf = some pub) :
    string2pubkey L seg = .ret pub := by
  unfold issClaim at hiss
  unfold string2pubkey
  simp only [hiss, sprintS, b64Decode_encode, hr]

theorem getD_wrap (p s : Str) (xs : List Str) (i : Nat) (h : i < xs.length) :
    (p :: (xs ++ [s])).getD (i + 1) [] = xs.getD i [] := by
  rw [List.getD_cons_succ, List.getD_append _ _ _ _ h]

theorem getD_wrap_last (p s : Str) (xs : List Str) :
    (p :: (xs ++ [s])).getD (xs.length + 1) [] = s := by
  rw [List.getD_cons_succ, List.getD_append_right _ _ _ _ (le_refl _)]
  simp

theorem slice_wrap_shift (p s : Str) (xs : List Str) (i j : Nat) (hj : j ≤ xs.length) :
    slice (p :: (xs ++ [s])) (i + 1 + 1) (j + 1) = slice xs (i + 1) j := by
  unfold slice
  simp [List.take_append_of_le_length hj]

theorem layerMessage_wrap_shift (p s : Str) (xs : List Str) (i j : Nat) (hi : i < xs.length)
    (hj : j ≤ xs.length) :
    layerMessage (p :: (xs ++ [s])) (i + 1) (j + 1) = layerMessage xs i j := by
  unfold layerMessage clean
  rw [getD_wrap p s xs i hi, slice_wrap_shift p s xs i j hj]

theorem schnorrInner_wrap (L : Lib) (p s : Str) (xs : List Str) (i j : Nat) (hi : i < xs.length)
    (hj : j < xs.length) :
    schnorrInner L (p :: (xs ++ [s])) (i + 1) (j + 1) = schnorrInner L xs i j := by
  unfold schnorrInner
  rw [getD_wrap p s xs i hi, getD_wrap p s xs j hj]

theorem schnorrLoop_step (L : Lib) (parts : List Str) (i j : Nat)
    (hc : i < parts.length / 2 ∧ i + 1 < (j + 1) - 1) :
    schnorrLoop L parts i (j + 1) =
      (loadsig L (parts.getD (j + 1) [])).bind fun _ =>
      (string2pubkey L (parts.getD i [])).bind fun _ => schnorrLoop L parts (i + 1) j := by
  rw [schnorrLoop.eq_2, if_pos hc]

theorem schnorrLoop_stop (L : Lib) (parts : List Str) (i j : Nat)
    (hc : ¬ (i < parts.length / 2 ∧ i + 1 < (j + 1) - 1)) :
    schnorrLoop L parts i (j + 1) = schnorrInner L parts i (j + 1) := by
  rw [schnorrLoop.eq_2, if_neg hc]

theorem schnorrLoop_wrap (L : Lib) (p s : Str) (xs : List Str) :
    ∀ j i, i < xs.length → j < xs.length →
      schnorrLoop L (p :: (xs ++ [s])) (i + 1) (j + 1) = schnorrLoop L xs i j := by
  intro j
  induction j with
  | zero =>
    intro i hi hj
    rw [schnorrLoop_stop L _ (i + 1) 0 (by omega), schnorrLoop.eq_1,
      schnorrInner_wrap L p s xs i 0 hi hj]
  | succ j ih =>
    intro i hi hj
    have hlen : (p :: (xs ++ [s])).length = xs.length + 2 := by simp
    by_cases hc : i < xs.length / 2 ∧ i + 1 < (j + 1) - 1
    · have hc2 : i + 1 < (p :: (xs ++ [s])).length / 2 ∧ i + 1 + 1 < (j + 1 + 1) - 1 := by
        rw [hlen]; omega
      rw [schnorrLoop_step L _ (i + 1) (j + 1) hc2, schnorrLoop_step L xs i j hc,
        getD_wrap p s xs (j + 1) hj, getD_wrap p s xs i hi]
      simp only [ih (i + 1) (by omega) (by omega)]
    · have hc2 : ¬ (i + 1 < (p :: (xs ++ [s])).length / 2 ∧ i + 1 + 1 < (j + 1 + 1) - 1) := by
        rw [hlen]; omega
      rw [schnorrLoop_stop L _ (i + 1) (j + 1) hc2, schnorrLoop_stop L xs i j hc,
        schnorrInner_wrap L p s xs i (j + 1) hi hj]

/-- Claim C3: builder and validators agree on the signed message. For segments that are not
empty and hold no white space and no square bracket, the message `parts[i] + "." + clean` of the
validators is `parts[i] + "." + strings.Join(parts[i+1:j], ".")`; and in a token that
`newschnorrencode` or `newencode` returns for a prior token `oldmain` of such segments, the last
segment is the signature over exactly the message that the validators compute for layer 0 of that
token, which is `payload + "." + oldmain`. -/
theorem C3_builder_and_validators_agree (L : Lib) (parts : List Str) (i j : Nat)
    (hparts : ∀ x ∈ slice parts (i + 1) j, plainSegment x)
    (claimset : ClaimMap) (oldmain : Str) (skey : L.Scalar) (ekey : L.ECPriv) (rnd : L.Rand)
    (hseg : ∀ x ∈ split '.' oldmain, plainSegment x) :
    layerMessage parts i j = parts.getD i [] ++ ['.'] ++ join ['.'] (slice parts (i + 1) j) ∧
    (∀ token, newschnorrencode L claimset oldmain skey rnd = .ret token →
      ∃ buf, L.writeSig (L.Sign rnd
          (layerMessage (split '.' token) 0 ((split '.' token).length - 1)) skey) = some buf ∧
        token = b64Encode (L.jsonMarshal claimset) ++ ['.'] ++ oldmain ++ ['.'] ++ b64Encode buf) ∧
    (∀ token, newencode L claimset oldmain ekey rnd = some token →
      ∃ s, L.signASN1 rnd ekey (L.sha256 (utf8
          (layerMessage (split '.' token) 0 ((split '.' token).length - 1)))) = some s ∧
        token = b64Encode (L.jsonMarshal claimset) ++ ['.'] ++ oldmain ++ ['.'] ++ b64Encode s) := by
  have hold : oldmain ≠ [] := by
    intro h
    subst h
    exact (hseg [] (by simp [split])).1 rfl
  have hmsg : ∀ sig : Bytes,
      layerMessage (split '.' (b64Encode (L.jsonMarshal claimset) ++ ['.'] ++ oldmain ++ ['.'] ++
          b64Encode sig)) 0
        ((split '.' (b64Encode (L.jsonMarshal claimset) ++ ['.'] ++ oldmain ++ ['.'] ++
          b64Encode sig)).length - 1)
      = b64Encode (L.jsonMarshal claimset) ++ ['.'] ++ oldmain := by
    intro sig
    have hsplit : split '.' (b64Encode (L.jsonMarshal claimset) ++ ['.'] ++ oldmain ++ ['.'] ++
        b64Encode sig) = b64Encode (L.jsonMarshal claimset) ::
          (split '.' oldmain ++ [b64Encode sig]) := by
      have := split_wrap '.' (b64Encode (L.jsonMarshal claimset)) oldmain (b64Encode sig)
        (b64Encode_no_dot _) (b64Encode_no_dot _)
      simpa using this
    rw [hsplit]
    exact layerMessage_wrap _ _ _ hseg
  refine ⟨?_, ?_, ?_⟩
  · unfold layerMessage
    rw [clean_eq_join parts i j hparts]
  · intro token htok
    unfold newschnorrencode at htok
    simp only [hold, if_false] at htok
    cases hw : L.writeSig (L.Sign rnd (join ['.'] [b64Encode (L.jsonMarshal claimset), oldmain]) skey) with
    | none => rw [hw] at htok; cases htok
    | some buf =>
      simp only [hw, Outcome.ret.injEq] at htok
      have htok2 : token = b64Encode (L.jsonMarshal claimset) ++ ['.'] ++ oldmain ++ ['.'] ++
          b64Encode buf := by
        rw [← htok]; simp [join]
      refine ⟨buf, ?_, htok2⟩
      rw [htok2, hmsg buf]
      simpa [join] using hw
  · intro token htok
    unfold newencode at htok
    simp only [hold, if_false] at htok
    cases hw : L.signASN1 rnd ekey
        (L.sha256 (utf8 (b64Encode (L.jsonMarshal claimset) ++ ['.'] ++ oldmain))) with
    | none => rw [hw] at htok; cases htok
    | some s =>
      simp only [hw, Option.some.injEq] at htok
      have htok2 : token = b64Encode (L.jsonMarshal claimset) ++ ['.'] ++ oldmain ++ ['.'] ++
          b64Encode s := by
        rw [← htok]; simp [join]
      refine ⟨s, ?_, htok2⟩
      rw [htok2, hmsg s]
      exact hw

/-- Witness of C3: the stand-in libraries, the layer 0 of `toyOuter` and the extension of
`toyInner` by `toyOuterClaims`. -/
theorem C3_witness :
    (∀ x ∈ slice (split '.' toyOuter) (0 + 1) 3, plainSegment x) ∧
    (∀ x ∈ split '.' toyInner, plainSegment x) ∧
    layerMessage (split '.' toyOuter) 0 3 =
      (split '.' toyOuter).getD 0 [] ++ ['.'] ++ join ['.'] (slice (split '.' toyOuter) (0 + 1) 3) ∧
    (∃ buf, (toyLib []).writeSig ((toyLib []).Sign ()
        (layerMessage (split '.' toyOuter) 0 ((split '.' toyOuter).length - 1)) (9 : Byte)) =
          some buf ∧
      toyOuter = b64Encode ((toyLib []).jsonMarshal toyOuterClaims) ++ ['.'] ++ toyInner ++ ['.'] ++
        b64Encode buf) :=
  ⟨by decide, by decide,
    (C3_builder_and_validators_agree (toyLib []) (split '.' toyOuter) 0 3 (by decide)
      toyOuterClaims toyInner (9 : Byte) (9 : Byte) () (by decide)).1,
    (C3_builder_and_validators_agree (toyLib []) (split '.' toyOuter) 0 3 (by decide)
      toyOuterClaims toyInner (9 : Byte) (9 : Byte) () (by decide)).2.1 toyOuter (by decide)⟩

/-- Claim C4: extension only prepends and appends. The payload and the signature segment hold no
dot; for a non-empty prior token `newencode` and `newschnorrencode` return
`payload + "." + prior + "." + signature` whenever the signing call gives a signature (`newencode`
returns its error, `newschnorrencode` exits, when it does not), and splitting that string at the
dots gives the payload, then the segments of the prior token unchanged and in order, then the
signature; for the empty prior token the result is `payload + "." + signature`, of exactly two
segments. -/
theorem C4_extension_prepends_and_appends (L : Lib) (claimset : ClaimMap) (prior : Str)
    (ekey : L.ECPriv) (skey : L.Scalar) (rnd : L.Rand) (hprior : prior ≠ []) :
    '.' ∉ b64Encode (L.jsonMarshal claimset) ∧
    newencode L claimset prior ekey rnd =
      (L.signASN1 rnd ekey
          (L.sha256 (utf8 (b64Encode (L.jsonMarshal claimset) ++ ['.'] ++ prior)))).map
        (fun s => b64Encode (L.jsonMarshal claimset) ++ ['.'] ++ prior ++ ['.'] ++ b64Encode s) ∧
    newschnorrencode L claimset prior skey rnd =
      (match L.writeSig (L.Sign rnd (b64Encode (L.jsonMarshal claimset) ++ ['.'] ++ prior) skey) with
        | none => Outcome.exit 1
        | some buf => Outcome.ret
            (b64Encode (L.jsonMarshal claimset) ++ ['.'] ++ prior ++ ['.'] ++ b64Encode buf)) ∧
    (∀ sig : Bytes, '.' ∉ b64Encode sig ∧
      split '.' (b64Encode (L.jsonMarshal claimset) ++ ['.'] ++ prior ++ ['.'] ++ b64Encode sig) =
        [b64Encode (L.jsonMarshal claimset)] ++ split '.' prior ++ [b64Encode sig]) ∧
    newencode L claimset [] ekey rnd =
      (L.signASN1 rnd ekey (L.sha256 (utf8 (b64Encode (L.jsonMarshal claimset))))).map
        (fun s => b64Encode (L.jsonMarshal claimset) ++ ['.'] ++ b64Encode s) ∧
    newschnorrencode L claimset [] skey rnd =
      (match L.writeSig (L.Sign rnd (b64Encode (L.jsonMarshal claimset)) skey) with
        | none => Outcome.exit 1
        | some buf => Outcome.ret (b64Encode (L.jsonMarshal claimset) ++ ['.'] ++ b64Encode buf)) ∧
    (∀ sig : Bytes,
      split '.' (b64Encode (L.jsonMarshal claimset) ++ ['.'] ++ b64Encode sig) =
        [b64Encode (L.jsonMarshal claimset), b64Encode sig]) := by
  refine ⟨b64Encode_no_dot _, ?_, ?_, ?_, ?_, ?_, ?_⟩
  · unfold newencode
    simp only [hprior, if_false]
    cases L.signASN1 rnd ekey
      (L.sha256 (utf8 (b64Encode (L.jsonMarshal claimset) ++ ['.'] ++ prior))) <;> simp [join]
  · unfold newschnorrencode
    simp only [hprior, if_false]
    have hj : join ['.'] [b64Encode (L.jsonMarshal claimset), prior] =
        b64Encode (L.jsonMarshal claimset) ++ ['.'] ++ prior := by simp [join]
    rw [hj]
    cases L.writeSig (L.Sign rnd (b64Encode (L.jsonMarshal claimset) ++ ['.'] ++ prior) skey) <;>
      simp [join]
  · intro sig
    refine ⟨b64Encode_no_dot _, ?_⟩
    have := split_wrap '.' (b64Encode (L.jsonMarshal claimset)) prior (b64Encode sig)
      (b64Encode_no_dot _) (b64Encode_no_dot _)
    simpa using this
  · unfold newencode
    simp only [if_true]
    cases L.signASN1 rnd ekey (L.sha256 (utf8 (b64Encode (L.jsonMarshal claimset)))) <;>
      simp [join]
  · unfold newschnorrencode
    simp only [if_true]
    cases L.writeSig (L.Sign rnd (b64Encode (L.jsonMarshal claimset)) skey) <;> simp [join]
  · intro sig
    have := split_append_sep '.' (b64Encode (L.jsonMarshal claimset)) (b64Encode sig)
      (b64Encode_no_dot _)
    rw [split_of_not_mem '.' _ (b64Encode_no_dot sig)] at this
    simpa using this

/-- Witness of C4: the extension of `toyInner` by `toyOuterClaims` in the stand-in libraries
is `toyOuter`, whose segments are the new payload, the two segments of `toyInner`, and the new
signature. -/
theorem C4_witness :
    toyInner ≠ [] ∧
    newschnorrencode (toyLib []) toyOuterClaims toyInner (9 : Byte) () = .ret toyOuter ∧
    split '.' toyOuter = ["e2lzcz1DUX0".toList] ++ split '.' toyInner ++
      [("CWUybHpjejFEVVgwLmUybHpjejFDZHp0aGRXUTlRMUY5LkIyVXliSHBqZWpGRFpIcDBhR1JYVVRsUk1VWTU").toList] :=
  ⟨by decide,
    ((C4_extension_prepends_and_appends (toyLib []) toyOuterClaims toyInner (9 : Byte) (9 : Byte) ()
      (by decide)).2.2.1).trans (by decide),
    by decide⟩

/-- Claim C5, as amended: for every claim value and every claim key other than `iss`, the token
that `schgen` builds is accepted by `validateschnorrassertion`, when `Verify(m, Sign(m, priv), pub)`
holds, the point and the signature are read back from what was written, and the `iss` entry of the
claim set is read back from its JSON. -/
theorem C5_schgen_round_trip (L : Lib) (priv : L.Scalar) (pub : L.Point) (issue_time : Int)
    (assertionkey assertionvalue : Str) (rnd : L.Rand) (pbuf sbuf : Bytes)
    (hkey : assertionkey ≠ "iss".toList)
    (hwp : L.writePoint pub = some pbuf) (hrp : L.readPoint pbuf = some pub)
    (hjson : mapGet (L.jsonUnmarshal (L.jsonMarshal
        (schgenClaims (b64Encode pbuf) issue_time assertionkey assertionvalue))) "iss".toList =
      mapGet (schgenClaims (b64Encode pbuf) issue_time assertionkey assertionvalue) "iss".toList)
    (hws : L.writeSig (L.Sign rnd (b64Encode (L.jsonMarshal
        (schgenClaims (b64Encode pbuf) issue_time assertionkey assertionvalue))) priv) = some sbuf)
    (hrs : L.readSig sbuf = some (L.Sign rnd (b64Encode (L.jsonMarshal
        (schgenClaims (b64Encode pbuf) issue_time assertionkey assertionvalue))) priv))
    (hverify : ∀ m, L.Verify m (L.Sign rnd m priv) pub = true) :
    ∃ token, schgen L priv pub issue_time assertionkey assertionvalue rnd = .ret token ∧
      validateschnorrassertion L token = .ret true := by
  refine ⟨b64Encode (L.jsonMarshal
      (schgenClaims (b64Encode pbuf) issue_time assertionkey assertionvalue)) ++ ['.'] ++
      b64Encode sbuf, ?_, ?_⟩
  · unfold schgen pubkey2string
    simp only [hwp, bind_ret]
    unfold newschnorrencode
    simp [hws, join]
  · unfold validateschnorrassertion
    simp only [split_two _ _ (b64Encode_no_dot _) (b64Encode_no_dot _)]
    have hsp : string2pubkey L (b64Encode (L.jsonMarshal
        (schgenClaims (b64Encode pbuf) issue_time assertionkey assertionvalue))) = .ret pub :=
      string2pubkey_of_iss L _ pbuf pub
        (by rw [issClaim_encode, hjson, schgenClaims_iss _ _ _ _ hkey]) hrp
    simp [schnorrLoop, schnorrInner, loadsig_encode L sbuf _ hrs, hsp, hverify]

/-- Witness of C5: `schgen role admin` with key 7 in the stand-in libraries. -/
theorem C5_witness :
    ∃ token, schgen (toyLib []) (7 : Byte) (7 : Byte) 5 "role".toList "admin".toList () =
        .ret token ∧
      validateschnorrassertion (toyLib []) token = .ret true :=
  C5_schgen_round_trip (toyLib []) (7 : Byte) (7 : Byte) 5 "role".toList "admin".toList ()
    [7] ((7 : Byte) :: utf8 (b64Encode (toyMarshal
      (schgenClaims (b64Encode [7]) 5 "role".toList "admin".toList))))
    (by decide) rfl rfl (by decide) rfl rfl
    (fun m => by simp [toyLib])

/-- Claim C5 as stated fails for the claim key `iss`: the map literal of `schgen` then stores the
claim value under `iss`, in place of the public key. In the stand-in libraries, where signing and
verifying agree and everything written is read back, `schgen iss x` builds the token
`e2lzcz14fQ.B2UybHpjejE0ZlE`, on which `validateschnorrassertion` ends the process in
`string2pubkey` instead of returning true. -/
theorem C5_counterexample :
    (toyLib []).writePoint (7 : Byte) = some [7] ∧
    (toyLib []).readPoint [7] = some (7 : Byte) ∧
    mapGet ((toyLib []).jsonUnmarshal ((toyLib []).jsonMarshal
        (schgenClaims (b64Encode [7]) 5 "iss".toList "x".toList))) "iss".toList =
      mapGet (schgenClaims (b64Encode [7]) 5 "iss".toList "x".toList) "iss".toList ∧
    (∀ sig, (toyLib []).writeSig sig = some sig) ∧
    (∀ m, (toyLib []).readSig ((toyLib []).Sign () m (7 : Byte)) =
      some ((toyLib []).Sign () m (7 : Byte))) ∧
    (∀ m, (toyLib []).Verify m ((toyLib []).Sign () m (7 : Byte)) (7 : Byte) = true) ∧
    schgen (toyLib []) (7 : Byte) (7 : Byte) 5 "iss".toList "x".toList () =
      .ret "e2lzcz14fQ.B2UybHpjejE0ZlE".toList ∧
    validateschnorrassertion (toyLib []) "e2lzcz14fQ.B2UybHpjejE0ZlE".toList = .exit 1 :=
  ⟨rfl, rfl, by decide, fun _ => rfl, fun _ => rfl, fun m => by simp [toyLib],
    by decide, by decide⟩

/-- Claim C6: extension preserves validity for Schnorr tokens. If `validateschnorrassertion`
returns true on a token `T` of at least two segments, and the claim set has
`iss = pubkey2string(pub)`, then `newschnorrencode(claims, T, priv)` returns a token on which
`validateschnorrassertion` returns true (the point, the signature and the `iss` entry being read
back from what was written). -/
theorem C6_extension_preserves_validity (L : Lib) (T : Str) (claims : ClaimMap)
    (priv : L.Scalar) (pub : L.Point) (rnd : L.Rand) (pbuf sbuf : Bytes)
    (hT : 2 ≤ (split '.' T).length)
    (hvalid : validateschnorrassertion L T = .ret true)
    (hwp : L.writePoint pub = some pbuf) (hrp : L.readPoint pbuf = some pub)
    (hiss : mapGet claims "iss".toList = .string (b64Encode pbuf))
    (hjson : mapGet (L.jsonUnmarshal (L.jsonMarshal claims)) "iss".toList =
      mapGet claims "iss".toList)
    (hws : L.writeSig (L.Sign rnd (b64Encode (L.jsonMarshal claims) ++ ['.'] ++ T) priv) =
      some sbuf)
    (hrs : L.readSig sbuf =
      some (L.Sign rnd (b64Encode (L.jsonMarshal claims) ++ ['.'] ++ T) priv)) :
    pubkey2string L pub = .ret (b64Encode pbuf) ∧
    ∃ token, newschnorrencode L claims T priv rnd = .ret token ∧
      validateschnorrassertion L token = .ret true := by
  have hTne : T ≠ [] := by
    intro h; subst h; simp [split] at hT
  refine ⟨by simp [pubkey2string, hwp],
    b64Encode (L.jsonMarshal claims) ++ ['.'] ++ T ++ ['.'] ++ b64Encode sbuf, ?_, ?_⟩
  · unfold newschnorrencode
    simp only [hTne, if_false]
    have hj : join ['.'] [b64Encode (L.jsonMarshal claims), T] =
        b64Encode (L.jsonMarshal claims) ++ ['.'] ++ T := by simp [join]
    rw [hj, hws]
    simp [join]
  · have hsplit : split '.' (b64Encode (L.jsonMarshal claims) ++ ['.'] ++ T ++ ['.'] ++
        b64Encode sbuf) = b64Encode (L.jsonMarshal claims) ::
          (split '.' T ++ [b64Encode sbuf]) := by
      have := split_wrap '.' (b64Encode (L.jsonMarshal claims)) T (b64Encode sbuf)
        (b64Encode_no_dot _) (b64Encode_no_dot _)
      simpa using this
    have hsp : string2pubkey L (b64Encode (L.jsonMarshal claims)) = .ret pub :=
      string2pubkey_of_iss L _ pbuf pub (by rw [issClaim_encode, hjson, hiss]) hrp
    unfold validateschnorrassertion at hvalid ⊢
    simp only [hsplit] at hvalid ⊢
    have hlen : (b64Encode (L.jsonMarshal claims) :: (split '.' T ++ [b64Encode sbuf])).length - 1
        = ((split '.' T).length - 1) + 1 + 1 := by
      simp; omega
    have hc : 0 < (b64Encode (L.jsonMarshal claims) ::
        (split '.' T ++ [b64Encode sbuf])).length / 2 ∧
        0 + 1 < ((split '.' T).length - 1 + 1 + 1) - 1 := by
      simp; omega
    rw [hlen, schnorrLoop_step L _ 0 _ hc]
    have hlast : (b64Encode (L.jsonMarshal claims) :: (split '.' T ++ [b64Encode sbuf])).getD
        ((split '.' T).length - 1 + 1 + 1) [] = b64Encode sbuf := by
      have h2 : (split '.' T).length - 1 + 1 + 1 = (split '.' T).length + 1 := by omega
      rw [h2, getD_wrap_last]
    rw [hlast, loadsig_encode L sbuf _ hrs]
    simp only [List.getD_cons_zero, hsp, bind_ret]
    rw [schnorrLoop_wrap L _ _ _ _ 0 (by omega) (by omega)]
    exact hvalid

/-- Witness of C6: the extension of `toyInner` by `toyOuterClaims` with key 9. -/
theorem C6_witness :
    validateschnorrassertion (toyLib []) toyInner = .ret true ∧
    pubkey2string (toyLib []) (9 : Byte) = .ret (b64Encode [9]) ∧
    ∃ token, newschnorrencode (toyLib []) toyOuterClaims toyInner (9 : Byte) () = .ret token ∧
      validateschnorrassertion (toyLib []) token = .ret true :=
  ⟨by decide,
    C6_extension_preserves_validity (toyLib []) toyInner toyOuterClaims (9 : Byte) (9 : Byte) ()
      [9] ((9 : Byte) :: utf8 (b64Encode (toyMarshal toyOuterClaims) ++ ['.'] ++ toyInner))
      (by decide) (by decide) rfl rfl (by decide) (by decide) rfl rfl⟩

/-! ## Lemmas on the key search and the loops -/

theorem searchKeys_cons (L : Lib) (hash signature : Bytes) (r : Str) (rest : List Str)
    (k : L.ECPub) (hk : recordKey L r = .ret k) :
    searchKeys L hash signature (r :: rest) =
      if L.verifyASN1 k hash signature = true then .ret true
      else if rest = [] then .ret false
      else searchKeys L hash signature rest := by
  rw [searchKeys, hk, bind_ret]
  by_cases hv : L.verifyASN1 k hash signature = true
  · simp [hv]
  · cases rest <;> simp [hv]

theorem searchKeys_true_iff (L : Lib) (hash signature : Bytes) (recs : List Str)
    (hne : recs ≠ []) (hparse : ∀ r ∈ recs, ∃ k, recordKey L r = .ret k) :
    searchKeys L hash signature recs = .ret true ↔
      ∃ r ∈ recs, ∃ k, recordKey L r = .ret k ∧ L.verifyASN1 k hash signature = true := by
  induction recs with
  | nil => exact absurd rfl hne
  | cons r rest ih =>
    obtain ⟨k, hk⟩ := hparse r (by simp)
    rw [searchKeys_cons L hash signature r rest k hk]
    by_cases hv : L.verifyASN1 k hash signature = true
    · simp only [hv, if_true, true_iff]
      exact ⟨r, by simp, k, hk, hv⟩
    · rw [if_neg hv]
      have hnot : ¬ ∃ k2, recordKey L r = .ret k2 ∧ L.verifyASN1 k2 hash signature = true := by
        rintro ⟨k2, hk2, hv2⟩
        rw [hk] at hk2
        cases hk2
        exact hv hv2
      by_cases hrest : rest = []
      · subst hrest
        simp only [if_true, List.mem_singleton, exists_eq_left]
        constructor
        · intro h; cases h
        · intro h; exact absurd h hnot
      · rw [if_neg hrest, ih hrest (fun x hx => hparse x (List.mem_cons_of_mem _ hx))]
        constructor
        · rintro ⟨x, hx, h⟩
          exact ⟨x, List.mem_cons_of_mem _ hx, h⟩
        · rintro ⟨x, hx, h⟩
          rcases List.mem_cons.1 hx with hxr | hxr
          · subst hxr; exact absurd h hnot
          · exact ⟨x, hxr, h⟩

theorem searchKeys_total (L : Lib) (hash signature : Bytes) (recs : List Str)
    (hparse : ∀ r ∈ recs, ∃ k, recordKey L r = .ret k) :
    ∃ b, searchKeys L hash signature recs = .ret b := by
  induction recs with
  | nil => exact ⟨true, rfl⟩
  | cons r rest ih =>
    obtain ⟨k, hk⟩ := hparse r (by simp)
    rw [searchKeys_cons L hash signature r rest k hk]
    by_cases hv : L.verifyASN1 k hash signature = true
    · exact ⟨true, by simp [hv]⟩
    · by_cases hrest : rest = []
      · exact ⟨false, by simp [hv, hrest]⟩
      · rw [if_neg hv, if_neg hrest]
        exact ih (fun x hx => hparse x (List.mem_cons_of_mem _ hx))

theorem searchKeys_false_iff (L : Lib) (hash signature : Bytes) (recs : List Str)
    (hne : recs ≠ []) (hparse : ∀ r ∈ recs, ∃ k, recordKey L r = .ret k) :
    searchKeys L hash signature recs = .ret false ↔
      ∀ r ∈ recs, ∀ k, recordKey L r = .ret k → L.verifyASN1 k hash signature = false := by
  have ht := searchKeys_true_iff L hash signature recs hne hparse
  obtain ⟨b, hb⟩ := searchKeys_total L hash signature recs hparse
  constructor
  · intro hf r hr k hk
    by_contra hv
    have : searchKeys L hash signature recs = .ret true :=
      ht.2 ⟨r, hr, k, hk, by simpa using hv⟩
    rw [hf] at this
    cases this
  · intro hall
    cases b with
    | false => exact hb
    | true =>
      obtain ⟨r, hr, k, hk, hv⟩ := ht.1 hb
      rw [hall r hr k hk] at hv
      cases hv

theorem searchKeys_first_match (L : Lib) (hash signature : Bytes) (pre : List Str) (r : Str)
    (post : List Str) (k : L.ECPub)
    (hpre : ∀ x ∈ pre, ∃ kx, recordKey L x = .ret kx ∧ L.verifyASN1 kx hash signature = false)
    (hk : recordKey L r = .ret k) (hv : L.verifyASN1 k hash signature = true) :
    searchKeys L hash signature (pre ++ r :: post) = .ret true := by
  induction pre with
  | nil =>
    rw [List.nil_append, searchKeys_cons L hash signature r post k hk, if_pos hv]
  | cons x pre ih =>
    obtain ⟨kx, hkx, hvx⟩ := hpre x (by simp)
    rw [List.cons_append, searchKeys_cons L hash signature x _ kx hkx]
    simp only [hvx, Bool.false_eq_true, if_false, List.append_eq_nil, and_false, reduceCtorEq]
    exact ih (fun y hy => hpre y (List.mem_cons_of_mem _ hy))

theorem searchKeys_first_panic (L : Lib) (hash signature : Bytes) (pre : List Str) (r : Str)
    (post : List Str)
    (hpre : ∀ x ∈ pre, ∃ kx, recordKey L x = .ret kx ∧ L.verifyASN1 kx hash signature = false)
    (hk : recordKey L r = .panic) :
    searchKeys L hash signature (pre ++ r :: post) = .panic := by
  induction pre with
  | nil =>
    rw [List.nil_append, searchKeys, hk, bind_panic]
  | cons x pre ih =>
    obtain ⟨kx, hkx, hvx⟩ := hpre x (by simp)
    rw [List.cons_append, searchKeys_cons L hash signature x _ kx hkx]
    simp only [hvx, Bool.false_eq_true, if_false, List.append_eq_nil, and_false, reduceCtorEq]
    exact ih (fun y hy => hpre y (List.mem_cons_of_mem _ hy))

theorem checkLayer_eq_search (L : Lib) (message payload sigseg : Str) (signature : Bytes)
    (keys : List Str) (hsig : b64Decode sigseg = (signature, false))
    (hkeys : getkeys L payload = .ret (keys, false)) :
    checkLayer L message payload sigseg =
      searchKeys L (L.sha256 (utf8 message)) signature keys.dropLast := by
  unfold checkLayer
  simp [hsig, hkeys]

theorem ecdsaLoop_step (L : Lib) (parts : List Str) (i j : Nat)
    (hc : i < parts.length / 2 ∧ i + 1 < (j + 1) - 1) :
    ecdsaLoop L parts i (j + 1) =
      (checkLayer L (layerMessage parts i (j + 1)) (parts.getD i []) (parts.getD (j + 1) [])).bind
        fun ok => if ok then ecdsaLoop L parts (i + 1) j else .ret false := by
  rw [ecdsaLoop.eq_2, if_pos hc]

theorem ecdsaLoop_stop (L : Lib) (parts : List Str) (i j : Nat)
    (hc : ¬ (i < parts.length / 2 ∧ i + 1 < (j + 1) - 1)) :
    ecdsaLoop L parts i (j + 1) =
      checkLayer L (parts.getD i []) (parts.getD i []) (parts.getD (j + 1) []) := by
  rw [ecdsaLoop.eq_2, if_neg hc]

theorem traceLoop_step (L : Lib) (parts : List Str) (i j : Nat)
    (hc : i < parts.length / 2 ∧ i + 1 < (j + 1) - 1) :
    traceLoop L parts i (j + 1) =
      (loadsig L (parts.getD (j + 1) [])).bind fun _ =>
      (checkaudlink L (parts.getD i []) (parts.getD (i + 1) [])).bind fun link =>
      if link == false then .ret false
      else (string2pubkey L (parts.getD i [])).bind fun _ => traceLoop L parts (i + 1) j := by
  rw [traceLoop.eq_2, if_pos hc]

theorem traceLoop_stop (L : Lib) (parts : List Str) (i j : Nat)
    (hc : ¬ (i < parts.length / 2 ∧ i + 1 < (j + 1) - 1)) :
    traceLoop L parts i (j + 1) = schnorrInner L parts i (j + 1) := by
  rw [traceLoop.eq_2, if_neg hc]

theorem goEq_true (a b : JValue) (h : goEq a b = .ret true) : a = b := by
  cases a <;> cases b <;> simp [goEq] at h <;> simp [h]

theorem goEq_scalar (a b : JValue) (h : isScalar a = true) :
    goEq a b = .ret (decide (a = b)) := by
  cases a <;> cases b <;> simp [goEq, isScalar] at h ⊢

theorem checkaudlink_true (L : Lib) (outer inner : Str)
    (h : checkaudlink L outer inner = .ret true) : issClaim L outer = audClaim L inner := by
  unfold checkaudlink at h
  obtain ⟨same, hs, hr⟩ := (bind_eq_ret _ _ _).1 h
  cases same with
  | true => exact goEq_true _ _ hs
  | false => simp at hr

theorem checkaudlink_scalar (L : Lib) (outer inner : Str)
    (h : isScalar (issClaim L outer) = true) :
    checkaudlink L outer inner = .ret (decide (issClaim L outer = audClaim L inner)) := by
  have := goEq_scalar (issClaim L outer) (audClaim L inner) h
  unfold issClaim audClaim at this
  unfold issClaim audClaim
  simp only [checkaudlink, this, bind_ret]
  cases decide (mapGet (L.jsonUnmarshal (b64Decode outer).1) "iss".toList =
    mapGet (L.jsonUnmarshal (b64Decode inner).1) "aud".toList) <;> rfl

theorem traceLoop_broken_link (L : Lib) (parts : List Str) (k i : Nat)
    (hlen : parts.length = 2 * k) (hi : i < k - 1)
    (hlink : issClaim L (parts.getD i []) ≠ audClaim L (parts.getD (i + 1) [])) :
    ∀ j i0, i0 ≤ i → i0 + j + 1 = parts.length → traceLoop L parts i0 j ≠ .ret true := by
  intro j
  induction j with
  | zero => intro i0 h0 hsum; omega
  | succ j ih =>
    intro i0 h0 hsum htrue
    have hc : i0 < parts.length / 2 ∧ i0 + 1 < (j + 1) - 1 := by omega
    rw [traceLoop_step L parts i0 j hc] at htrue
    obtain ⟨_, _, h1⟩ := (bind_eq_ret _ _ _).1 htrue
    obtain ⟨link, hl, h2⟩ := (bind_eq_ret _ _ _).1 h1
    cases link with
    | false => simp at h2
    | true =>
      simp only [Bool.true_eq_false, beq_iff_eq, if_false] at h2
      obtain ⟨_, _, h3⟩ := (bind_eq_ret _ _ _).1 h2
      rcases Nat.lt_or_ge i0 i with hlt | hge
      · exact ih (i0 + 1) hlt (by omega) h3
      · have : i0 = i := by omega
        subst this
        exact hlink (checkaudlink_true L _ _ hl)

theorem split_three (p x s : Str) (hp : '.' ∉ p) (hx : '.' ∉ x) (hs : '.' ∉ s) :
    split '.' (p ++ ['.'] ++ x ++ ['.'] ++ s) = [p, x, s] := by
  have := split_wrap '.' p x s hp hs
  rw [split_of_not_mem '.' x hx] at this
  simpa using this

theorem ecdsaLoop_wrap (L : Lib) (p s : Str) (xs : List Str) :
    ∀ j i, i < xs.length → j < xs.length →
      ecdsaLoop L (p :: (xs ++ [s])) (i + 1) (j + 1) = ecdsaLoop L xs i j := by
  intro j
  induction j with
  | zero =>
    intro i hi hj
    rw [ecdsaLoop_stop L _ (i + 1) 0 (by omega), ecdsaLoop.eq_1, getD_wrap p s xs i hi,
      getD_wrap p s xs 0 hj]
  | succ j ih =>
    intro i hi hj
    have hlen : (p :: (xs ++ [s])).length = xs.length + 2 := by simp
    by_cases hc : i < xs.length / 2 ∧ i + 1 < (j + 1) - 1
    · have hc2 : i + 1 < (p :: (xs ++ [s])).length / 2 ∧ i + 1 + 1 < (j + 1 + 1) - 1 := by
        rw [hlen]; omega
      rw [ecdsaLoop_step L _ (i + 1) (j + 1) hc2, ecdsaLoop_step L xs i j hc,
        getD_wrap p s xs (j + 1) hj, getD_wrap p s xs i hi,
        layerMessage_wrap_shift p s xs i (j + 1) hi (by omega)]
      simp only [ih (i + 1) (by omega) (by omega)]
    · have hc2 : ¬ (i + 1 < (p :: (xs ++ [s])).length / 2 ∧ i + 1 + 1 < (j + 1 + 1) - 1) := by
        rw [hlen]; omega
      rw [ecdsaLoop_stop L _ (i + 1) (j + 1) hc2, ecdsaLoop_stop L xs i j hc,
        getD_wrap p s xs (j + 1) hj, getD_wrap p s xs i hi]

/-- Claim C7, as amended: the candidate-key search of `validateassertion`. When `getkeys`
returns the slice `keys` with `n = len(keys)-1 >= 1` key records and every record holds a public
key that parses, the layer is accepted if and only if one of the `n` records verifies the
signature, and the function returns false if and only if none does; the records are tried in
response order and the first one that verifies ends the search, whatever the records after it
are; a record whose key does not parse makes the search panic when it is reached, that is when
no record before it verifies; a layer check that fails makes `validateassertion` return false,
in the loop and at the inner level. -/
theorem C7_candidate_key_search (L : Lib) (message payload sigseg : Str) (signature : Bytes)
    (keys : List Str)
    (hsig : b64Decode sigseg = (signature, false))
    (hkeys : getkeys L payload = .ret (keys, false))
    (hn : 1 ≤ keys.length - 1) :
    ((∀ r ∈ keys.dropLast, ∃ k, recordKey L r = .ret k) →
      (checkLayer L message payload sigseg = .ret true ↔
        ∃ r ∈ keys.dropLast, ∃ k, recordKey L r = .ret k ∧
          L.verifyASN1 k (L.sha256 (utf8 message)) signature = true) ∧
      (checkLayer L message payload sigseg = .ret false ↔
        ∀ r ∈ keys.dropLast, ∀ k, recordKey L r = .ret k →
          L.verifyASN1 k (L.sha256 (utf8 message)) signature = false)) ∧
    (∀ pre r post k, keys.dropLast = pre ++ r :: post →
      (∀ x ∈ pre, ∃ kx, recordKey L x = .ret kx ∧
        L.verifyASN1 kx (L.sha256 (utf8 message)) signature = false) →
      recordKey L r = .ret k → L.verifyASN1 k (L.sha256 (utf8 message)) signature = true →
      checkLayer L message payload sigseg = .ret true) ∧
    (∀ pre r post, keys.dropLast = pre ++ r :: post →
      (∀ x ∈ pre, ∃ kx, recordKey L x = .ret kx ∧
        L.verifyASN1 kx (L.sha256 (utf8 message)) signature = false) →
      recordKey L r = .panic →
      checkLayer L message payload sigseg = .panic) ∧
    (∀ parts i j, i < parts.length / 2 ∧ i + 1 < (j + 1) - 1 →
      message = layerMessage parts i (j + 1) → payload = parts.getD i [] →
      sigseg = parts.getD (j + 1) [] →
      checkLayer L message payload sigseg = .ret false → ecdsaLoop L parts i (j + 1) = .ret false) ∧
    (∀ parts i j, ¬ (i < parts.length / 2 ∧ i + 1 < (j + 1) - 1) →
      message = parts.getD i [] → payload = parts.getD i [] → sigseg = parts.getD (j + 1) [] →
      ecdsaLoop L parts i (j + 1) = checkLayer L message payload sigseg) := by
  have hne : keys.dropLast ≠ [] := by
    intro h
    have := congrArg List.length h
    simp at this
    omega
  have hcl := checkLayer_eq_search L message payload sigseg signature keys hsig hkeys
  refine ⟨fun hparse => ?_, ?_, ?_, ?_, ?_⟩
  · rw [hcl]
    exact ⟨searchKeys_true_iff L _ _ _ hne hparse, searchKeys_false_iff L _ _ _ hne hparse⟩
  · intro pre r post k hsplit hpre hk hv
    rw [hcl, hsplit]
    exact searchKeys_first_match L _ _ pre r post k hpre hk hv
  · intro pre r post hsplit hpre hk
    rw [hcl, hsplit]
    exact searchKeys_first_panic L _ _ pre r post hpre hk
  · intro parts i j hc hm hp hs hfalse
    rw [hm, hp, hs] at hfalse
    rw [ecdsaLoop_step L parts i j hc, hfalse]
    rfl
  · intro parts i j hc hm hp hs
    rw [ecdsaLoop_stop L parts i j hc, hp, hs]
    rw [hm]

/-- Witness of C7: the payload `e2tpZD1rfQ` has `kid` = `k`, the directory answers with the
records of key 9 and key 7, and the signature is the one of key 7: the first record fails, the
second is accepted. -/
theorem C7_witness :
    b64Decode "B2UydHBaRDFyZlE".toList = ((7 : Byte) :: utf8 "e2tpZD1rfQ".toList, false) ∧
    getkeys (toyLib toyDirectory) "e2tpZD1rfQ".toList =
      .ret (splitAfter '\x7d' toyDirectory, false) ∧
    1 ≤ (splitAfter '\x7d' toyDirectory).length - 1 ∧
    checkLayer (toyLib toyDirectory) "e2tpZD1rfQ".toList "e2tpZD1rfQ".toList
      "B2UydHBaRDFyZlE".toList = .ret true :=
  ⟨by decide, by decide, by decide,
    (C7_candidate_key_search (toyLib toyDirectory) "e2tpZD1rfQ".toList "e2tpZD1rfQ".toList
      "B2UydHBaRDFyZlE".toList ((7 : Byte) :: utf8 "e2tpZD1rfQ".toList)
      (splitAfter '\x7d' toyDirectory) (by decide) (by decide) (by decide)).2.1
      ["\x7bPkey=CQ\x7d".toList] "\x7bPkey=Bw\x7d".toList [] (7 : Byte) (by decide)
      (fun x hx => by
        have hx2 : x = "\x7bPkey=CQ\x7d".toList := by simpa using hx
        subst hx2
        exact ⟨(9 : Byte), rfl, rfl⟩)
      rfl rfl⟩

/-- Claim C7 as stated fails on records whose key does not parse. The payload `e2tpZD1rfQ` has
`kid` = `k` and the signature is the one of key 7. When the directory answers with a malformed
record followed by the record of key 7, one of the two records verifies the signature, yet the
layer is not accepted: the search panics on the first record. When it answers with the record of
key 9 followed by a malformed record, none of the two records verifies the signature, yet
`validateassertion` does not return false: the search panics on the second record. -/
theorem C7_counterexample :
    getkeys (toyLib "\x7bPkey=AAAA\x7d\x7bPkey=Bw\x7d".toList) "e2tpZD1rfQ".toList =
      .ret (["\x7bPkey=AAAA\x7d".toList, "\x7bPkey=Bw\x7d".toList, []], false) ∧
    recordKey (toyLib "\x7bPkey=AAAA\x7d\x7bPkey=Bw\x7d".toList) "\x7bPkey=Bw\x7d".toList =
      .ret (7 : Byte) ∧
    (toyLib "\x7bPkey=AAAA\x7d\x7bPkey=Bw\x7d".toList).verifyASN1 (7 : Byte)
      ((toyLib "\x7bPkey=AAAA\x7d\x7bPkey=Bw\x7d".toList).sha256 (utf8 "e2tpZD1rfQ".toList))
      (b64Decode "B2UydHBaRDFyZlE".toList).1 = true ∧
    checkLayer (toyLib "\x7bPkey=AAAA\x7d\x7bPkey=Bw\x7d".toList) "e2tpZD1rfQ".toList
      "e2tpZD1rfQ".toList "B2UydHBaRDFyZlE".toList = .panic ∧
    validateassertion (toyLib "\x7bPkey=AAAA\x7d\x7bPkey=Bw\x7d".toList)
      "e2tpZD1rfQ.B2UydHBaRDFyZlE".toList ≠ .ret true ∧
    getkeys (toyLib "\x7bPkey=CQ\x7d\x7bPkey=AAAA\x7d".toList) "e2tpZD1rfQ".toList =
      .ret (["\x7bPkey=CQ\x7d".toList, "\x7bPkey=AAAA\x7d".toList, []], false) ∧
    recordKey (toyLib "\x7bPkey=CQ\x7d\x7bPkey=AAAA\x7d".toList) "\x7bPkey=CQ\x7d".toList =
      .ret (9 : Byte) ∧
    (toyLib "\x7bPkey=CQ\x7d\x7bPkey=AAAA\x7d".toList).verifyASN1 (9 : Byte)
      ((toyLib "\x7bPkey=CQ\x7d\x7bPkey=AAAA\x7d".toList).sha256 (utf8 "e2tpZD1rfQ".toList))
      (b64Decode "B2UydHBaRDFyZlE".toList).1 = false ∧
    recordKey (toyLib "\x7bPkey=CQ\x7d\x7bPkey=AAAA\x7d".toList) "\x7bPkey=AAAA\x7d".toList =
      .panic ∧
    validateassertion (toyLib "\x7bPkey=CQ\x7d\x7bPkey=AAAA\x7d".toList)
      "e2tpZD1rfQ.B2UydHBaRDFyZlE".toList ≠ .ret false :=
  ⟨by decide, rfl, rfl, by decide, by decide, by decide, rfl, rfl, rfl, by decide⟩

/-- Claim C8: link enforcement. On a token of `2k` segments, `k >= 2`, `validateschnorrtrace`
does not return true when for some `i < k-1` the `iss` claim of payload `i` differs from the `aud`
claim of payload `i+1`, whatever the signatures are; and `checkaudlink(outer, inner)` returns true
only when `outer.iss` equals `inner.aud`, and for a scalar `iss` value returns true when they are
equal and false when they are not. -/
theorem C8_link_enforcement (L : Lib) (token : Str) (k i : Nat)
    (hlen : (split '.' token).length = 2 * k) (hk : 2 ≤ k) (hi : i < k - 1)
    (hlink : issClaim L ((split '.' token).getD i []) ≠
      audClaim L ((split '.' token).getD (i + 1) [])) :
    validateschnorrtrace L token ≠ .ret true ∧
    (∀ outer inner : Str,
      (checkaudlink L outer inner = .ret true → issClaim L outer = audClaim L inner) ∧
      (isScalar (issClaim L outer) = true →
        checkaudlink L outer inner = .ret (decide (issClaim L outer = audClaim L inner)))) := by
  refine ⟨?_, fun outer inner =>
    ⟨checkaudlink_true L outer inner, checkaudlink_scalar L outer inner⟩⟩
  unfold validateschnorrtrace
  exact traceLoop_broken_link L _ k i hlen hi hlink _ 0 (Nat.zero_le _) (by omega)

/-- Witness of C8: `toyBrokenLink` has four segments, its outer `iss` differs from the inner
`aud`, and `validateschnorrtrace` does not return true on it. -/
theorem C8_witness :
    (split '.' toyBrokenLink).length = 2 * 2 ∧
    issClaim (toyLib []) ((split '.' toyBrokenLink).getD 0 []) ≠
      audClaim (toyLib []) ((split '.' toyBrokenLink).getD (0 + 1) []) ∧
    validateschnorrtrace (toyLib []) toyBrokenLink ≠ .ret true :=
  ⟨by decide, by decide,
    (C8_link_enforcement (toyLib []) toyBrokenLink 2 0 (by decide) (by decide) (by decide)
      (by decide)).1⟩

/-- Claim C9, as amended: the validators make no check of the segment count. For segments `P`,
`X`, `S` without dots the token `P.X.S` has three segments, and each of `validateassertion`,
`validateschnorrassertion` and `validateschnorrtrace` returns on it exactly what it returns on the
two-segment token `P.S`: the middle segment is never read. -/
theorem C9_odd_token_not_rejected (L : Lib) (P X S : Str) (hP : '.' ∉ P) (hX : '.' ∉ X)
    (hS : '.' ∉ S) :
    (split '.' (P ++ ['.'] ++ X ++ ['.'] ++ S)).length = 3 ∧
    validateassertion L (P ++ ['.'] ++ X ++ ['.'] ++ S) = validateassertion L (P ++ ['.'] ++ S) ∧
    validateschnorrassertion L (P ++ ['.'] ++ X ++ ['.'] ++ S) =
      validateschnorrassertion L (P ++ ['.'] ++ S) ∧
    validateschnorrtrace L (P ++ ['.'] ++ X ++ ['.'] ++ S) =
      validateschnorrtrace L (P ++ ['.'] ++ S) := by
  have h3 := split_three P X S hP hX hS
  have h2 := split_two P S hP hS
  refine ⟨by rw [h3]; rfl, ?_, ?_, ?_⟩
  · unfold validateassertion
    simp only [h3, h2]
    show ecdsaLoop L [P, X, S] 0 (1 + 1) = ecdsaLoop L [P, S] 0 (0 + 1)
    rw [ecdsaLoop_stop L _ 0 1 (by simp), ecdsaLoop_stop L _ 0 0 (by simp)]
    rfl
  · unfold validateschnorrassertion
    simp only [h3, h2]
    show schnorrLoop L [P, X, S] 0 (1 + 1) = schnorrLoop L [P, S] 0 (0 + 1)
    rw [schnorrLoop_stop L _ 0 1 (by simp), schnorrLoop_stop L _ 0 0 (by simp)]
    rfl
  · unfold validateschnorrtrace
    simp only [h3, h2]
    show traceLoop L [P, X, S] 0 (1 + 1) = traceLoop L [P, S] 0 (0 + 1)
    rw [traceLoop_stop L _ 0 1 (by simp), traceLoop_stop L _ 0 0 (by simp)]
    rfl

/-- Witness of C9: the segments `e2tpZD1rfQ` (the payload with `kid` = `k`), `AA` and
`B2UydHBaRDFyZlE` (the signature of key 7 over that payload). -/
theorem C9_witness :
    validateassertion (toyLib toyDirectory) ("e2tpZD1rfQ".toList ++ ['.'] ++ "AA".toList ++
        ['.'] ++ "B2UydHBaRDFyZlE".toList) =
      validateassertion (toyLib toyDirectory)
        ("e2tpZD1rfQ".toList ++ ['.'] ++ "B2UydHBaRDFyZlE".toList) :=
  (C9_odd_token_not_rejected (toyLib toyDirectory) "e2tpZD1rfQ".toList "AA".toList
    "B2UydHBaRDFyZlE".toList (by decide) (by decide) (by decide)).2.1

/-- Claim C9 as stated fails: both tokens below have three segments (a validly signed
two-segment token with the segment `AA` inserted in the middle), and each of the three validators
returns true. -/
theorem C9_counterexample :
    (split '.' "e2tpZD1rfQ.AA.B2UydHBaRDFyZlE".toList).length = 3 ∧
    validateassertion (toyLib toyDirectory) "e2tpZD1rfQ.AA.B2UydHBaRDFyZlE".toList = .ret true ∧
    (split '.' "e2lzcz1Cd30.AA.B2UybHpjejFDZDMw".toList).length = 3 ∧
    validateschnorrassertion (toyLib []) "e2lzcz1Cd30.AA.B2UybHpjejFDZDMw".toList = .ret true ∧
    validateschnorrtrace (toyLib []) "e2lzcz1Cd30.AA.B2UybHpjejFDZDMw".toList = .ret true := by
  decide

/-- Claim C10: the recursive structure of ECDSA verification. For a token `P.T.S` where `P` and
`S` hold no dot and `T` has at least two segments, all of them non-empty and free of white space
and square brackets, `validateassertion(P.T.S)` is the outer-layer check of `S` over
`P + "." + T` under the keys of `P`, followed, when it passes, by `validateassertion(T)`; so it
is true if and only if the outer check passes and `validateassertion(T)` is true. -/
theorem C10_truncation (L : Lib) (P T S : Str) (hP : '.' ∉ P) (hS : '.' ∉ S)
    (hT : 2 ≤ (split '.' T).length) (hseg : ∀ x ∈ split '.' T, plainSegment x) :
    validateassertion L (P ++ ['.'] ++ T ++ ['.'] ++ S) =
      ((checkLayer L (P ++ ['.'] ++ T) P S).bind fun ok =>
        if ok then validateassertion L T else .ret false) ∧
    (validateassertion L (P ++ ['.'] ++ T ++ ['.'] ++ S) = .ret true ↔
      checkLayer L (P ++ ['.'] ++ T) P S = .ret true ∧ validateassertion L T = .ret true) := by
  have hsplit : split '.' (P ++ ['.'] ++ T ++ ['.'] ++ S) = P :: (split '.' T ++ [S]) := by
    have := split_wrap '.' P T S hP hS
    simpa using this
  have hmain : validateassertion L (P ++ ['.'] ++ T ++ ['.'] ++ S) =
      ((checkLayer L (P ++ ['.'] ++ T) P S).bind fun ok =>
        if ok then validateassertion L T else .ret false) := by
    unfold validateassertion
    simp only [hsplit]
    have hlen : (P :: (split '.' T ++ [S])).length - 1 = ((split '.' T).length - 1) + 1 + 1 := by
      simp; omega
    have hc : 0 < (P :: (split '.' T ++ [S])).length / 2 ∧
        0 + 1 < ((split '.' T).length - 1 + 1 + 1) - 1 := by
      simp; omega
    have hmsg := layerMessage_wrap P T S hseg
    rw [hlen] at hmsg
    have hlast : (P :: (split '.' T ++ [S])).getD ((split '.' T).length - 1 + 1 + 1) [] = S := by
      have h2 : (split '.' T).length - 1 + 1 + 1 = (split '.' T).length + 1 := by omega
      rw [h2, getD_wrap_last]
    rw [hlen, ecdsaLoop_step L _ 0 _ hc, hmsg, hlast, List.getD_cons_zero]
    simp only [ecdsaLoop_wrap L P S (split '.' T) ((split '.' T).length - 1) 0 (by omega)
      (by omega)]
  refine ⟨hmain, ?_⟩
  rw [hmain]
  constructor
  · intro h
    obtain ⟨ok, hok, hr⟩ := (bind_eq_ret _ _ _).1 h
    cases ok with
    | true => exact ⟨hok, by simpa using hr⟩
    | false => simp at hr
  · rintro ⟨h1, h2⟩
    rw [h1, bind_ret]
    simpa using h2

/-- Witness of C10: the two-segment token `e2tpZD1rfQ.B2UydHBaRDFyZlE` of key 7, whose
payload has `kid` = `k`, extended by one layer of key 7 with the same payload. -/
theorem C10_witness :
    (∀ x ∈ split '.' "e2tpZD1rfQ.B2UydHBaRDFyZlE".toList, plainSegment x) ∧
    validateassertion (toyLib toyDirectory)
      ("e2tpZD1rfQ".toList ++ ['.'] ++ "e2tpZD1rfQ.B2UydHBaRDFyZlE".toList ++ ['.'] ++
        "B2UydHBaRDFyZlEuZTJ0cFpEMXJmUS5CMlV5ZEhCYVJERnlabEU".toList) =
        .ret true :=
  ⟨by decide,
    (C10_truncation (toyLib toyDirectory) "e2tpZD1rfQ".toList
      "e2tpZD1rfQ.B2UydHBaRDFyZlE".toList
      "B2UydHBaRDFyZlEuZTJ0cFpEMXJmUS5CMlV5ZEhCYVJERnlabEU".toList
      (by decide) (by decide) (by decide) (by decide)).2.2
      ⟨by decide, by decide⟩⟩

/-! ## Lemmas on the commands, the slices and the chains of tokens -/

theorem pubkey2string_cases (L : Lib) (p : L.Point) :
    pubkey2string L p = .exit 1 ∨ ∃ own, pubkey2string L p = .ret own := by
  unfold pubkey2string
  cases L.writePoint p with
  | none => exact Or.inl rfl
  | some buf => exact Or.inr ⟨_, rfl⟩

theorem slice_eq_cons (parts : List Str) (i j : Nat) (hi : i < j) (hj : j ≤ parts.length) :
    slice parts i j = parts.getD i [] :: slice parts (i + 1) j := by
  unfold slice
  have hlt : i < (parts.take j).length := by simp; omega
  rw [List.drop_eq_getElem_cons hlt, List.getElem_take, List.getD_eq_getElem]

theorem layerMessage_eq_join_slice (parts : List Str) (i j : Nat) (hij : i + 1 < j)
    (hj : j ≤ parts.length) (hplain : ∀ x ∈ slice parts (i + 1) j, plainSegment x) :
    layerMessage parts i j = join ['.'] (slice parts i j) := by
  unfold layerMessage
  rw [clean_eq_join parts i j hplain, slice_eq_cons parts i j (by omega) hj,
    slice_eq_cons parts (i + 1) j hij hj, join_cons_cons]

theorem slice_split (parts : List Str) (i k j : Nat) (hik : i ≤ k) (hkj : k ≤ j)
    (hk : k ≤ parts.length) :
    slice parts i j = slice parts i k ++ slice parts k j := by
  unfold slice
  have h1 : parts.take j = parts.take k ++ (parts.take j).drop k := by
    have := List.take_append_drop k (parts.take j)
    rw [List.take_take, Nat.min_eq_left hkj] at this
    exact this.symm
  have h2 : i ≤ (parts.take k).length := by simp; omega
  conv_lhs => rw [h1]
  rw [List.drop_append_of_le_length h2]

theorem slice_length (parts : List Str) (i j : Nat) (hj : j ≤ parts.length) :
    (slice parts i j).length = j - i := by
  unfold slice
  simp
  omega

theorem newschnorrencode_fresh (L : Lib) (claims : ClaimMap) (key : L.Scalar) (rnd : L.Rand)
    (token : Str) (h : newschnorrencode L claims [] key rnd = .ret token) :
    token ≠ [] ∧ (split '.' token).length = 2 := by
  unfold newschnorrencode at h
  simp only [if_true] at h
  cases hw : L.writeSig (L.Sign rnd (b64Encode (L.jsonMarshal claims)) key) with
  | none => rw [hw] at h; cases h
  | some buf =>
    rw [hw] at h
    simp only [Outcome.ret.injEq] at h
    have ht : token = b64Encode (L.jsonMarshal claims) ++ ['.'] ++ b64Encode buf := by
      rw [← h]; simp [join]
    rw [ht, split_two _ _ (b64Encode_no_dot _) (b64Encode_no_dot _)]
    exact ⟨by simp, rfl⟩

theorem newschnorrencode_extend (L : Lib) (claims : ClaimMap) (prior : Str) (key : L.Scalar)
    (rnd : L.Rand) (token : Str) (hprior : prior ≠ [])
    (h : newschnorrencode L claims prior key rnd = .ret token) :
    token ≠ [] ∧ (split '.' token).length = (split '.' prior).length + 2 := by
  unfold newschnorrencode at h
  simp only [hprior, if_false] at h
  cases hw : L.writeSig (L.Sign rnd (join ['.'] [b64Encode (L.jsonMarshal claims), prior]) key) with
  | none => rw [hw] at h; cases h
  | some buf =>
    rw [hw] at h
    simp only [Outcome.ret.injEq] at h
    have ht : token = b64Encode (L.jsonMarshal claims) ++ '.' :: (prior ++ '.' :: b64Encode buf) := by
      rw [← h]; simp [join]
    rw [ht, split_wrap '.' _ prior _ (b64Encode_no_dot _) (b64Encode_no_dot _)]
    exact ⟨by simp, by simp⟩

theorem newencode_fresh (L : Lib) (claims : ClaimMap) (key : L.ECPriv) (rnd : L.Rand)
    (token : Str) (h : newencode L claims [] key rnd = some token) :
    token ≠ [] ∧ (split '.' token).length = 2 := by
  unfold newencode at h
  simp only [if_true] at h
  cases hw : L.signASN1 rnd key (L.sha256 (utf8 (b64Encode (L.jsonMarshal claims)))) with
  | none => rw [hw] at h; cases h
  | some buf =>
    rw [hw] at h
    simp only [Option.some.injEq] at h
    have ht : token = b64Encode (L.jsonMarshal claims) ++ ['.'] ++ b64Encode buf := by
      rw [← h]; simp [join]
    rw [ht, split_two _ _ (b64Encode_no_dot _) (b64Encode_no_dot _)]
    exact ⟨by simp, rfl⟩

theorem newencode_extend (L : Lib) (claims : ClaimMap) (prior : Str) (key : L.ECPriv)
    (rnd : L.Rand) (token : Str) (hprior : prior ≠ [])
    (h : newencode L claims prior key rnd = some token) :
    token ≠ [] ∧ (split '.' token).length = (split '.' prior).length + 2 := by
  unfold newencode at h
  simp only [hprior, if_false] at h
  cases hw : L.signASN1 rnd key
      (L.sha256 (utf8 (b64Encode (L.jsonMarshal claims) ++ ['.'] ++ prior))) with
  | none => rw [hw] at h; cases h
  | some buf =>
    rw [hw] at h
    simp only [Option.some.injEq] at h
    have ht : token = b64Encode (L.jsonMarshal claims) ++ '.' :: (prior ++ '.' :: b64Encode buf) := by
      rw [← h]; simp [join]
    rw [ht, split_wrap '.' _ prior _ (b64Encode_no_dot _) (b64Encode_no_dot _)]
    exact ⟨by simp, by simp⟩

theorem extendSchnorr_length (L : Lib) (steps : List (ClaimMap × L.Scalar × L.Rand)) :
    ∀ token result, token ≠ [] → extendSchnorr L token steps = .ret result →
      (split '.' result).length = (split '.' token).length + 2 * steps.length := by
  induction steps with
  | nil =>
    intro token result _ h
    simp only [extendSchnorr, Outcome.ret.injEq] at h
    simp [h]
  | cons step rest ih =>
    intro token result hne h
    rw [extendSchnorr] at h
    obtain ⟨next, hnext, hrest⟩ := (bind_eq_ret _ _ _).1 h
    have h1 := newschnorrencode_extend L _ _ _ _ _ hne hnext
    rw [ih next result h1.1 hrest, h1.2]
    simp; omega

theorem extendEcdsa_length (L : Lib) (steps : List (ClaimMap × L.ECPriv × L.Rand)) :
    ∀ token result, token ≠ [] → extendEcdsa L token steps = some result →
      (split '.' result).length = (split '.' token).length + 2 * steps.length := by
  induction steps with
  | nil =>
    intro token result _ h
    simp only [extendEcdsa, Option.some.injEq] at h
    simp [h]
  | cons step rest ih =>
    intro token result hne h
    rw [extendEcdsa] at h
    cases hn : newencode L step.1 token step.2.1 step.2.2 with
    | none => rw [hn] at h; cases h
    | some next =>
      rw [hn] at h
      have h1 := newencode_extend L _ _ _ _ _ hne hn
      rw [ih next result h1.1 h, h1.2]
      simp; omega

theorem extendSchnorr_total (L : Lib) (hw : ∀ s, ∃ buf, L.writeSig s = some buf)
    (steps : List (ClaimMap × L.Scalar × L.Rand)) :
    ∀ token, ∃ result, extendSchnorr L token steps = .ret result := by
  induction steps with
  | nil => intro token; exact ⟨token, rfl⟩
  | cons step rest ih =>
    intro token
    rw [extendSchnorr]
    have : ∃ next, newschnorrencode L step.1 token step.2.1 step.2.2 = .ret next := by
      unfold newschnorrencode
      by_cases ht : token = []
      · simp only [ht, if_true]
        obtain ⟨buf, hb⟩ := hw (L.Sign step.2.2 (b64Encode (L.jsonMarshal step.1)) step.2.1)
        rw [hb]; exact ⟨_, rfl⟩
      · simp only [ht, if_false]
        obtain ⟨buf, hb⟩ := hw (L.Sign step.2.2
          (join ['.'] [b64Encode (L.jsonMarshal step.1), token]) step.2.1)
        rw [hb]; exact ⟨_, rfl⟩
    obtain ⟨next, hnext⟩ := this
    rw [hnext, bind_ret]
    exact ih next

theorem splitAfter_of_not_mem (sep : Char) (s : Str) (h : sep ∉ s) : splitAfter sep s = [s] := by
  induction s with
  | nil => simp [splitAfter]
  | cons c s ih =>
    have hc : c ≠ sep := fun e => h (by simp [e])
    have hs : sep ∉ s := fun e => h (by simp [e])
    simp [splitAfter, hc, ih hs]

/-! ## The claims on the commands and the invariants -/

/-- Claim C11: the audience check of `traceadd`. The command prints an extended token only if
`pubkey2string` of the public key derived from the seed is the `aud` claim of segment 0 of the
prior token; when it is not (the claim is absent, is not that string, or the segment does not
decode) the command ends with `os.Exit(1)` and prints no token. -/
theorem C11_traceadd_audience_check {L : Lib} (H : Host L) (oldmain seed nextseed : Str)
    (issue_time : Int) (rnd : L.Rand) :
    (∀ token, traceadd H oldmain seed nextseed issue_time rnd = .ret token →
      ∃ own, pubkey2string L (H.IDKeyPair seed).2 = .ret own ∧
        audClaim L ((split '.' oldmain).getD 0 []) = .string own) ∧
    ((∀ own, pubkey2string L (H.IDKeyPair seed).2 = .ret own →
        audClaim L ((split '.' oldmain).getD 0 []) ≠ .string own) →
      traceadd H oldmain seed nextseed issue_time rnd = .exit 1) := by
  unfold traceadd audClaim
  rcases pubkey2string_cases L (H.IDKeyPair seed).2 with hex | ⟨own, hown⟩
  · simp only [hex, bind_exit]
    constructor
    · intro token h; cases h
    · intro _; first | rfl | trivial
  · simp only [hown, bind_ret]
    by_cases hne : JValue.string own ≠
        mapGet (L.jsonUnmarshal (b64Decode ((split '.' oldmain).getD 0 [])).1) "aud".toList
    · rw [if_pos hne]
      exact ⟨fun token h => (by cases h), fun _ => rfl⟩
    · rw [if_neg hne]
      have heq := not_not.1 hne
      refine ⟨fun token _ => ⟨own, rfl, heq.symm⟩, fun hall => ?_⟩
      exact absurd heq.symm (hall own rfl)

/-- Witness of C11: the seed of key 9 extends `toyInner`, whose `aud` is key 9. -/
theorem C11_witness :
    ∃ own, pubkey2string (toyLib []) ((toyHost []).IDKeyPair "\t".toList).2 = .ret own ∧
      audClaim (toyLib []) ((split '.' toyInner).getD 0 []) = .string own :=
  (C11_traceadd_audience_check (toyHost []) toyInner "\t".toList "\n".toList 5 ()).1
    (("e2F1ZD1DZztpc3M9Q1F9.e2lzcz1CdzthdWQ9Q1F9.B2UybHpjejFDZHp0aGRXUTlRMUY5." ++
      "CWUyRjFaRDFEWnp0cGMzTTlRMUY5LmUybHpjejFDZHp0aGRXUTlRMUY5LkIyVXliSHBqZWpGRFpIcDBhR1JYVVRsUk1VWTU").toList)
    rfl

/-- Claim C12: `append` verifies before extending. When `validateassertion(prior)` returns false
the command prints no token and passes no key record to `addkey`; a token is printed or a
record is stored only if `validateassertion(prior)` returned true, and a printed token is the
result of `newencode` on the prior token. -/
theorem C12_append_verifies_first {L : Lib} (H : Host L) (clientSVID : X509SVID L)
    (issue_time exp : Int) (mainvalue assertionkey assertionvalue svidAsIssuer : Str)
    (rnd : L.Rand) :
    (validateassertion L mainvalue = .ret false →
      append H clientSVID issue_time exp mainvalue assertionkey assertionvalue svidAsIssuer rnd =
        ⟨[], [], .exit 1⟩) ∧
    ((append H clientSVID issue_time exp mainvalue assertionkey assertionvalue svidAsIssuer
          rnd).assertions ≠ [] ∨
      (append H clientSVID issue_time exp mainvalue assertionkey assertionvalue svidAsIssuer
          rnd).stored ≠ [] →
      validateassertion L mainvalue = .ret true) ∧
    (∀ token ∈ (append H clientSVID issue_time exp mainvalue assertionkey assertionvalue
        svidAsIssuer rnd).assertions,
      ∃ issuer, newencode L (ecdsaClaims issuer issue_time (b64Encode (utf8 clientSVID.ID))
        assertionkey assertionvalue) mainvalue clientSVID.PrivateKey rnd = some token) := by
  refine ⟨fun h => ?_, fun h => ?_, fun token ht => ?_⟩
  · unfold append
    rw [h]
    rfl
  · unfold append at h
    cases hv : validateassertion L mainvalue with
    | exit c => rw [hv] at h; simp at h
    | panic => rw [hv] at h; simp at h
    | ret valid =>
      cases valid with
      | true => rfl
      | false => rw [hv] at h; simp at h
  · unfold append at ht
    cases hv : validateassertion L mainvalue with
    | exit c => rw [hv] at ht; simp at ht
    | panic => rw [hv] at ht; simp at ht
    | ret valid =>
      cases valid with
      | false => rw [hv] at ht; simp at ht
      | true =>
        rw [hv] at ht
        simp only [bne_self_eq_false, Bool.false_eq_true, if_false] at ht
        cases hi : issuerFor H svidAsIssuer clientSVID (encodedKey H clientSVID.PrivateKey) with
        | exit c => rw [hi] at ht; simp at ht
        | panic => rw [hi] at ht; simp at ht
        | ret issuer =>
          rw [hi] at ht
          simp only at ht
          cases hn : newencode L (ecdsaClaims issuer issue_time (b64Encode (utf8 clientSVID.ID))
              assertionkey assertionvalue) mainvalue clientSVID.PrivateKey rnd with
          | none => rw [hn] at ht; simp at ht
          | some assertion =>
            rw [hn] at ht
            have htok : token = assertion := by
              cases ha : addkey H (keyRecord H (b64Encode (utf8 clientSVID.ID))
                (encodedKey H clientSVID.PrivateKey) exp) <;> rw [ha] at ht <;> simpa using ht
            exact ⟨issuer, by rw [htok]; exact hn⟩

/-- Witness of C12: the prior token `e2tpZD1rfQ.B2UzMQ` (payload with `kid` = `k`, signature
of key 7 over another payload) does not verify, and `append` leaves nothing behind. -/
theorem C12_witness :
    validateassertion (toyLib toyDirectory) "e2tpZD1rfQ.B2UzMQ".toList = .ret false ∧
    append (toyHost toyDirectory) (toySVID toyDirectory) 5 6 "e2tpZD1rfQ.B2UzMQ".toList
      "role".toList "admin".toList "spiffeid".toList () = ⟨[], [], .exit 1⟩ :=
  ⟨by decide,
    (C12_append_verifies_first (toyHost toyDirectory) (toySVID toyDirectory) 5 6
      "e2tpZD1rfQ.B2UzMQ".toList "role".toList "admin".toList "spiffeid".toList ()).1 (by decide)⟩

/-- Claim C13, evaluated on the code: `validateassertion` returns false on the prior token
`e2tpZD1rfQ.B2UzMQ` (payload with `kid` = `k`, signature of key 7 over another payload), and
`multiappend` with count 1 nevertheless prints an extended token; the command never calls
`validateassertion`. -/
theorem C13_multiappend_skips_validation :
    validateassertion (toyLib toyDirectory) "e2tpZD1rfQ.B2UzMQ".toList = .ret false ∧
    (multiappend (toyHost toyDirectory) (fun _ => toySVID toyDirectory) (fun _ => 5) (fun _ => 6)
        (fun _ => ()) "e2tpZD1rfQ.B2UzMQ".toList "role".toList "admin".toList 1
        "spiffeid".toList).assertions =
      [("e3JvbGUwPWFkbWluMDtraWQ9ZDJ3O2lzcz13bH0.e2tpZD1rfQ.B2UzMQ." ++
        "B2UzSnZiR1V3UFdGa2JXbHVNRHRyYVdROVpESjNPMmx6Y3oxM2JIMC5lMnRwWkQxcmZRLkIyVXpNUQ").toList] := by
  decide

/-- Claim C14, evaluated on the code: for the four-segment token `toyOuter` the command
`concatenate` takes its private key from segment 1 (the second payload), which gives the scalar
123, and not from the last segment 3 (the outermost signature), whose scalar is 9; the new layer
is signed with 123 and its `iss` is `pubkey2string` of the point of 123. -/
theorem C14_concatenate_reads_segment_one :
    (split '.' toyOuter).length = 4 ∧
    concatenateKey (toyHost []) toyOuter =
      (loadsig (toyLib []) ((split '.' toyOuter).getD 1 [])).bind
        (fun sig => .ret ((toyHost []).sigS sig)) ∧
    concatenateKey (toyHost []) toyOuter = .ret (123 : Byte) ∧
    (loadsig (toyLib []) ((split '.' toyOuter).getD 3 [])).bind
        (fun sig => .ret ((toyHost []).sigS sig)) = .ret (9 : Byte) ∧
    concatenate (toyHost []) toyOuter "role".toList "admin".toList 5 () =
      newschnorrencode (toyLib []) (schgenClaims "ew".toList 5 "role".toList "admin".toList)
        toyOuter (123 : Byte) () := by
  refine ⟨by decide, rfl, rfl, rfl, ?_⟩
  rfl

/-- Claim C15, as amended: for a token of `2k` segments and an outer layer `i < k-1`, the
message checked against the signature in segment `2k-1-i` is the dot-join of the segments
`i, ..., 2k-2-i`, that is the payloads `P_i, ..., P_(k-1)` followed by the `k-1-i >= 1` inner
signature segments (the whole inner token); only the innermost layer `k-1` is checked against the
payload alone. -/
theorem C15_signed_message_is_inner_token (L : Lib) (parts : List Str) (k i : Nat)
    (hlen : parts.length = 2 * k) (hi : i + 1 < k)
    (hplain : ∀ x ∈ slice parts (i + 1) (2 * k - 1 - i), plainSegment x) :
    layerMessage parts i (2 * k - 1 - i) = join ['.'] (slice parts i (2 * k - 1 - i)) ∧
    slice parts i (2 * k - 1 - i) = slice parts i k ++ slice parts k (2 * k - 1 - i) ∧
    (slice parts i k).length = k - i ∧
    (slice parts k (2 * k - 1 - i)).length = k - 1 - i ∧
    ecdsaLoop L parts i (2 * k - 1 - i) =
      ((checkLayer L (join ['.'] (slice parts i (2 * k - 1 - i))) (parts.getD i [])
          (parts.getD (2 * k - 1 - i) [])).bind
        fun ok => if ok then ecdsaLoop L parts (i + 1) (2 * k - 1 - i - 1) else .ret false) ∧
    outerVerify L parts i (2 * k - 1 - i) =
      ((loadsig L (parts.getD (2 * k - 1 - i) [])).bind fun signature =>
        (string2pubkey L (parts.getD i [])).bind fun pubkey =>
          .ret (L.Verify (join ['.'] (slice parts i (2 * k - 1 - i))) signature pubkey)) ∧
    ecdsaLoop L parts (k - 1) k =
      checkLayer L (parts.getD (k - 1) []) (parts.getD (k - 1) []) (parts.getD k []) ∧
    schnorrLoop L parts (k - 1) k = schnorrInner L parts (k - 1) k := by
  have hmsg := layerMessage_eq_join_slice parts i (2 * k - 1 - i) (by omega) (by omega) hplain
  have hj : 2 * k - 1 - i = (2 * k - 1 - i - 1) + 1 := by omega
  refine ⟨hmsg, slice_split parts i k _ (by omega) (by omega) (by omega),
    by rw [slice_length _ _ _ (by omega)], by rw [slice_length _ _ _ (by omega)]; omega,
    ?_, ?_, ?_, ?_⟩
  · rw [← hmsg]
    conv_lhs => rw [hj]
    rw [ecdsaLoop_step L parts i _ (by omega), ← hj]
  · unfold outerVerify
    rw [hmsg]
  · cases k with
    | zero => omega
    | succ n =>
      simp only [Nat.add_sub_cancel]
      rw [ecdsaLoop_stop L parts n n (by omega)]
  · cases k with
    | zero => omega
    | succ n =>
      simp only [Nat.add_sub_cancel]
      rw [schnorrLoop_stop L parts n n (by omega)]

/-- Witness of C15: layer 0 of the four-segment token `toyOuter`. -/
theorem C15_witness :
    layerMessage (split '.' toyOuter) 0 (2 * 2 - 1 - 0) =
      join ['.'] (slice (split '.' toyOuter) 0 (2 * 2 - 1 - 0)) :=
  (C15_signed_message_is_inner_token (toyLib []) (split '.' toyOuter) 2 0 (by decide)
    (by decide) (by decide)).1

/-- Claim C15 as stated fails: for layer 0 of the four-segment token `toyOuter` the message of
the validators holds the signature segment of the inner token and is not the dot-join of the two
payload segments. -/
theorem C15_counterexample :
    (split '.' toyOuter).length = 2 * 2 ∧
    (∀ x ∈ split '.' toyOuter, plainSegment x) ∧
    layerMessage (split '.' toyOuter) 0 (2 * 2 - 1 - 0) =
      ("e2lzcz1DUX0.e2lzcz1CdzthdWQ9Q1F9.B2UybHpjejFDZHp0aGRXUTlRMUY5").toList ∧
    join ['.'] (slice (split '.' toyOuter) 0 2) = "e2lzcz1DUX0.e2lzcz1CdzthdWQ9Q1F9".toList ∧
    layerMessage (split '.' toyOuter) 0 (2 * 2 - 1 - 0) ≠
      join ['.'] (slice (split '.' toyOuter) 0 2) := by
  decide

/-- Claim C16, as amended: every token of `2k` segments that `validateschnorrtrace` accepts
satisfies `P_i.iss == P_(i+1).aud` for all `i < k-1`, index 0 being the outermost payload. -/
theorem C16_accepted_trace_links (L : Lib) (token : Str) (k : Nat)
    (hlen : (split '.' token).length = 2 * k)
    (haccept : validateschnorrtrace L token = .ret true) :
    ∀ i, i < k - 1 →
      issClaim L ((split '.' token).getD i []) = audClaim L ((split '.' token).getD (i + 1) []) := by
  intro i hi
  by_contra hne
  unfold validateschnorrtrace at haccept
  exact traceLoop_broken_link L _ k i hlen hi hne _ 0 (Nat.zero_le _) (by omega) haccept

/-- Witness of C16: `toyOuter` is accepted and its outer `iss` is the inner `aud`. -/
theorem C16_witness :
    issClaim (toyLib []) ((split '.' toyOuter).getD 0 []) =
      audClaim (toyLib []) ((split '.' toyOuter).getD (0 + 1) []) :=
  C16_accepted_trace_links (toyLib []) toyOuter 2 (by decide) (by decide) 0 (by decide)

/-- Claim C16 as stated fails: `validateschnorrtrace` accepts the four-segment token `toyOuter`,
whose outer payload has no `aud` claim while the inner payload has `iss` = key 7, so
`P_0.aud == P_1.iss` does not hold. -/
theorem C16_counterexample :
    (split '.' toyOuter).length = 2 * 2 ∧
    validateschnorrtrace (toyLib []) toyOuter = .ret true ∧
    audClaim (toyLib []) ((split '.' toyOuter).getD 0 []) = .null ∧
    issClaim (toyLib []) ((split '.' toyOuter).getD (0 + 1) []) = .string "Bw".toList ∧
    audClaim (toyLib []) ((split '.' toyOuter).getD 0 []) ≠
      issClaim (toyLib []) ((split '.' toyOuter).getD (0 + 1) []) := by
  decide

/-- Claim C17, as amended: on a two-segment token `P.S` the loop of `validateschnorrtrace`
does not run, `checkaudlink` is never called, and the function returns what
`validateschnorrassertion` returns: the result of `dasvid.Verify` for `S` over `P`, whether or not
the payload has an `aud` claim. -/
theorem C17_single_hop_has_no_link_check (L : Lib) (P S : Str) (hP : '.' ∉ P) (hS : '.' ∉ S) :
    (split '.' (P ++ ['.'] ++ S)).length = 2 ∧
    validateschnorrtrace L (P ++ ['.'] ++ S) = validateschnorrassertion L (P ++ ['.'] ++ S) ∧
    validateschnorrtrace L (P ++ ['.'] ++ S) =
      ((loadsig L S).bind fun signature =>
        (string2pubkey L P).bind fun pubkey => .ret (L.Verify P signature pubkey)) := by
  have h2 := split_two P S hP hS
  refine ⟨by rw [h2]; rfl, ?_, ?_⟩
  · unfold validateschnorrtrace validateschnorrassertion
    simp only [h2]
    show traceLoop L [P, S] 0 (0 + 1) = schnorrLoop L [P, S] 0 (0 + 1)
    rw [traceLoop_stop L _ 0 0 (by simp), schnorrLoop_stop L _ 0 0 (by simp)]
  · unfold validateschnorrtrace
    simp only [h2]
    show traceLoop L [P, S] 0 (0 + 1) = _
    rw [traceLoop_stop L _ 0 0 (by simp)]
    rfl

/-- Witness of C17: the token of `schgen role admin` in the stand-in libraries. -/
theorem C17_witness :
    validateschnorrtrace (toyLib [])
        ("e3JvbGU9YWRtaW47aXNzPUJ3fQ".toList ++ ['.'] ++
          "B2UzSnZiR1U5WVdSdGFXNDdhWE56UFVKM2ZR".toList) =
      validateschnorrassertion (toyLib [])
        ("e3JvbGU9YWRtaW47aXNzPUJ3fQ".toList ++ ['.'] ++
          "B2UzSnZiR1U5WVdSdGFXNDdhWE56UFVKM2ZR".toList) :=
  (C17_single_hop_has_no_link_check (toyLib []) "e3JvbGU9YWRtaW47aXNzPUJ3fQ".toList
    "B2UzSnZiR1U5WVdSdGFXNDdhWE56UFVKM2ZR".toList (by decide) (by decide)).2.1

/-- Claim C17 as stated fails: the two-segment token that `schgen role admin` builds has no
`aud` claim, and `validateschnorrtrace` returns true on it. -/
theorem C17_counterexample :
    schgen (toyLib []) (7 : Byte) (7 : Byte) 5 "role".toList "admin".toList () =
      .ret "e3JvbGU9YWRtaW47aXNzPUJ3fQ.B2UzSnZiR1U5WVdSdGFXNDdhWE56UFVKM2ZR".toList ∧
    (split '.' "e3JvbGU9YWRtaW47aXNzPUJ3fQ.B2UzSnZiR1U5WVdSdGFXNDdhWE56UFVKM2ZR".toList).length
      = 2 ∧
    audClaim (toyLib []) "e3JvbGU9YWRtaW47aXNzPUJ3fQ".toList = .null ∧
    validateschnorrtrace (toyLib [])
      "e3JvbGU9YWRtaW47aXNzPUJ3fQ.B2UzSnZiR1U5WVdSdGFXNDdhWE56UFVKM2ZR".toList = .ret true := by
  decide

/-- Claim C18: the segment count. A token obtained from a fresh build (`newschnorrencode` or
`newencode` with the empty prior token) followed by `n` extensions by the same function has
exactly `2(n+1)` dot-separated segments; and when `curve.Write` never fails, the Schnorr chain
does produce a token. -/
theorem C18_segment_count (L : Lib) :
    (∀ (first : ClaimMap × L.Scalar × L.Rand) (steps : List (ClaimMap × L.Scalar × L.Rand))
        (token : Str),
      (newschnorrencode L first.1 [] first.2.1 first.2.2).bind
          (fun fresh => extendSchnorr L fresh steps) = .ret token →
        (split '.' token).length = 2 * (steps.length + 1)) ∧
    (∀ (first : ClaimMap × L.ECPriv × L.Rand) (steps : List (ClaimMap × L.ECPriv × L.Rand))
        (token : Str),
      (newencode L first.1 [] first.2.1 first.2.2).bind
          (fun fresh => extendEcdsa L fresh steps) = some token →
        (split '.' token).length = 2 * (steps.length + 1)) ∧
    ((∀ s, ∃ buf, L.writeSig s = some buf) →
      ∀ (first : ClaimMap × L.Scalar × L.Rand) (steps : List (ClaimMap × L.Scalar × L.Rand)),
        ∃ token, (newschnorrencode L first.1 [] first.2.1 first.2.2).bind
          (fun fresh => extendSchnorr L fresh steps) = .ret token) := by
  refine ⟨?_, ?_, ?_⟩
  · intro first steps token h
    obtain ⟨fresh, hf, hrest⟩ := (bind_eq_ret _ _ _).1 h
    have h1 := newschnorrencode_fresh L _ _ _ _ hf
    rw [extendSchnorr_length L steps fresh token h1.1 hrest, h1.2]
    omega
  · intro first steps token h
    cases hf : newencode L first.1 [] first.2.1 first.2.2 with
    | none => rw [hf] at h; cases h
    | some fresh =>
      rw [hf] at h
      have h1 := newencode_fresh L _ _ _ _ hf
      have h2 : extendEcdsa L fresh steps = some token := h
      rw [extendEcdsa_length L steps fresh token h1.1 h2, h1.2]
      omega
  · intro hw first steps
    obtain ⟨fresh, hf⟩ := extendSchnorr_total L hw [first] []
    rw [extendSchnorr] at hf
    obtain ⟨fresh2, hf2, _⟩ := (bind_eq_ret _ _ _).1 hf
    rw [hf2, bind_ret]
    exact extendSchnorr_total L hw steps fresh2

/-- Witness of C18: `toyOuter` is a fresh build followed by one extension, and has four
segments. -/
theorem C18_witness :
    (split '.' toyOuter).length = 2 * (1 + 1) :=
  (C18_segment_count (toyLib [])).1
    ([("iss".toList, .string "Bw".toList), ("aud".toList, .string "CQ".toList)], (7 : Byte), ())
    [(toyOuterClaims, (9 : Byte), ())] toyOuter (by decide)

/-- Claim C19, as amended: for every claim value, every claim key other than `iss`, `iat` and
`kid`, and each issuer mode, the claim set of `ecdsagen` maps `iss` to the issuer of the mode
(the SPIFFE ID, the marshalled SVID, the encoded public key), `kid` to
`base64url(utf8(spiffe_id))`, `iat` to the issue time and the claim key to the claim value; this
claim set is what the printed token encodes, and the stored key record has the same `kid`. -/
theorem C19_ecdsagen_claim_set {L : Lib} (H : Host L) (clientSVID : X509SVID L)
    (issue_time exp : Int) (assertionkey assertionvalue svidAsIssuer : Str) (rnd : L.Rand)
    (issuer : Str)
    (hiss : assertionkey ≠ "iss".toList) (hiat : assertionkey ≠ "iat".toList)
    (hkid : assertionkey ≠ "kid".toList)
    (hissuer : issuerFor H svidAsIssuer clientSVID (encodedKey H clientSVID.PrivateKey) =
      .ret issuer) :
    mapGet (ecdsaClaims issuer issue_time (b64Encode (utf8 clientSVID.ID)) assertionkey
      assertionvalue) "iss".toList = .string issuer ∧
    mapGet (ecdsaClaims issuer issue_time (b64Encode (utf8 clientSVID.ID)) assertionkey
      assertionvalue) "kid".toList = .string (b64Encode (utf8 clientSVID.ID)) ∧
    mapGet (ecdsaClaims issuer issue_time (b64Encode (utf8 clientSVID.ID)) assertionkey
      assertionvalue) "iat".toList = .number issue_time ∧
    mapGet (ecdsaClaims issuer issue_time (b64Encode (utf8 clientSVID.ID)) assertionkey
      assertionvalue) assertionkey = .string assertionvalue ∧
    (svidAsIssuer = "spiffeid".toList → issuer = clientSVID.ID) ∧
    (svidAsIssuer = "svid".toList →
      ∃ tmp, clientSVID.Marshal = some tmp ∧ issuer = H.bytesToString tmp) ∧
    (svidAsIssuer = "anonymous".toList →
      issuer = H.bytesToString (encodedKey H clientSVID.PrivateKey)) ∧
    (∀ s, L.signASN1 rnd clientSVID.PrivateKey (L.sha256 (utf8 (b64Encode (L.jsonMarshal
        (ecdsaClaims issuer issue_time (b64Encode (utf8 clientSVID.ID)) assertionkey
          assertionvalue))))) = some s →
      ecdsagen H clientSVID issue_time exp assertionkey assertionvalue svidAsIssuer rnd =
        ⟨[b64Encode (L.jsonMarshal (ecdsaClaims issuer issue_time
            (b64Encode (utf8 clientSVID.ID)) assertionkey assertionvalue)) ++ ['.'] ++
            b64Encode s],
          [H.bytesToString (H.jsonMarshalKey ⟨b64Encode (utf8 clientSVID.ID), "EC256".toList,
            encodedKey H clientSVID.PrivateKey, exp⟩)],
          .exit 1⟩) := by
  refine ⟨?_, ?_, ?_, ?_, ?_, ?_, ?_, ?_⟩
  · unfold ecdsaClaims
    rw [mapGet_mapSet_ne _ _ _ _ (Ne.symm hiss), mapGet_mapSet_ne _ _ _ _ (by decide),
      mapGet_mapSet_ne _ _ _ _ (by decide), mapGet_mapSet_self]
  · unfold ecdsaClaims
    rw [mapGet_mapSet_ne _ _ _ _ (Ne.symm hkid), mapGet_mapSet_self]
  · unfold ecdsaClaims
    rw [mapGet_mapSet_ne _ _ _ _ (Ne.symm hiat), mapGet_mapSet_ne _ _ _ _ (by decide),
      mapGet_mapSet_self]
  · unfold ecdsaClaims
    rw [mapGet_mapSet_self]
  · intro hm
    unfold issuerFor at hissuer
    rw [if_pos hm] at hissuer
    cases hissuer
    rfl
  · intro hm
    unfold issuerFor at hissuer
    have h1 : svidAsIssuer ≠ "spiffeid".toList := by rw [hm]; decide
    rw [if_neg h1, if_pos hm] at hissuer
    cases hmar : clientSVID.Marshal with
    | none => rw [hmar] at hissuer; cases hissuer
    | some tmp =>
      rw [hmar] at hissuer
      cases hissuer
      exact ⟨tmp, rfl, rfl⟩
  · intro hm
    unfold issuerFor at hissuer
    have h1 : svidAsIssuer ≠ "spiffeid".toList := by rw [hm]; decide
    have h2 : svidAsIssuer ≠ "svid".toList := by rw [hm]; decide
    rw [if_neg h1, if_neg h2, if_pos hm] at hissuer
    cases hissuer
    rfl
  · intro s hs
    unfold ecdsagen
    simp only [hissuer]
    have hn : newencode L (ecdsaClaims issuer issue_time (b64Encode (utf8 clientSVID.ID))
        assertionkey assertionvalue) [] clientSVID.PrivateKey rnd =
        some (b64Encode (L.jsonMarshal (ecdsaClaims issuer issue_time
          (b64Encode (utf8 clientSVID.ID)) assertionkey assertionvalue)) ++ ['.'] ++
          b64Encode s) := by
      unfold newencode
      simp only [if_true, hs]
      simp [join]
    rw [hn]
    simp only [keyRecord]
    cases addkey H (H.bytesToString (H.jsonMarshalKey ⟨b64Encode (utf8 clientSVID.ID),
      "EC256".toList, encodedKey H clientSVID.PrivateKey, exp⟩)) <;> rfl

/-- Witness of C19: `ecdsagen role admin spiffeid` for the stand-in identity. -/
theorem C19_witness :
    mapGet (ecdsaClaims "wl".toList 5 (b64Encode (utf8 (toySVID toyDirectory).ID)) "role".toList
      "admin".toList) "kid".toList = .string "d2w".toList ∧
    ecdsagen (toyHost toyDirectory) (toySVID toyDirectory) 5 6 "role".toList "admin".toList
        "spiffeid".toList () =
      ⟨[("e3JvbGU9YWRtaW47a2lkPWQydztpc3M9d2x9." ++
          "B2UzSnZiR1U5WVdSdGFXNDdhMmxrUFdReWR6dHBjM005ZDJ4OQ").toList],
        ["\x7bKid=d2w;Pkey=Bw\x7d".toList], .exit 1⟩ :=
  ⟨((C19_ecdsagen_claim_set (toyHost toyDirectory) (toySVID toyDirectory) 5 6 "role".toList
      "admin".toList "spiffeid".toList () "wl".toList (by decide) (by decide) (by decide)
      rfl).2.1).trans (by decide),
    ((C19_ecdsagen_claim_set (toyHost toyDirectory) (toySVID toyDirectory) 5 6 "role".toList
      "admin".toList "spiffeid".toList () "wl".toList (by decide) (by decide) (by decide)
      rfl).2.2.2.2.2.2.2 _ rfl).trans (by decide)⟩

/-- Claim C19 as stated fails for the claim key `kid`: the map literal stores the claim
value `x` under `kid`, so the payload of the printed token carries `kid = x`, while the stored key
record has `Kid = d2w`, the encoding of the SPIFFE ID. -/
theorem C19_counterexample :
    issuerFor (toyHost toyDirectory) "spiffeid".toList (toySVID toyDirectory)
      (encodedKey (toyHost toyDirectory) (toySVID toyDirectory).PrivateKey) = .ret "wl".toList ∧
    b64Encode (utf8 (toySVID toyDirectory).ID) = "d2w".toList ∧
    mapGet (ecdsaClaims "wl".toList 5 "d2w".toList "kid".toList "x".toList) "kid".toList =
      .string "x".toList ∧
    ecdsagen (toyHost toyDirectory) (toySVID toyDirectory) 5 6 "kid".toList "x".toList
        "spiffeid".toList () =
      ⟨["e2tpZD14O2lzcz13bH0.B2UydHBaRDE0TzJsemN6MTNiSDA".toList],
        ["\x7bKid=d2w;Pkey=Bw\x7d".toList], .exit 1⟩ ∧
    mapGet ((toyLib toyDirectory).jsonUnmarshal (b64Decode "e2tpZD14O2lzcz13bH0".toList).1)
      "kid".toList = .string "x".toList := by
  decide

/-- Claim C20, evaluated on the code: when the response body holds no closing brace (no key
record), `getkeys` returns a nil slice together with a nil error. -/
theorem C20_getkeys_nil_error_on_empty_answer (L : Lib) (message body : Str)
    (hresp : L.httpGet ("http://localhost:8888/key/".toList ++
      sprintS L (mapGet (L.jsonUnmarshal (b64Decode message).1) "kid".toList)) = .ret (some body))
    (hnone : '\x7d' ∉ body) :
    getkeys L message = .ret ([], false) := by
  unfold getkeys
  simp only [hresp, bind_ret, splitAfter_of_not_mem _ _ hnone]
  rfl

/-- Witness of C20: the payload `e2tpZD1rfQ` has `kid` = `k`, and the directory answers the
request for `http://localhost:8888/key/k` with `no such key`. -/
theorem C20_witness :
    '\x7d' ∉ "no such key".toList ∧
    getkeys (toyLib "no such key".toList) "e2tpZD1rfQ".toList = .ret ([], false) :=
  ⟨by decide,
    C20_getkeys_nil_error_on_empty_answer (toyLib "no such key".toList) "e2tpZD1rfQ".toList
      "no such key".toList rfl (by decide)⟩


/-! ## Lemmas on printing, key parsing and the order of the layers -/

theorem validateassertion_two (L : Lib) (P S : Str) (hP : '.' ∉ P) (hS : '.' ∉ S) :
    validateassertion L (P ++ ['.'] ++ S) = checkLayer L P P S := by
  unfold validateassertion
  simp only [split_two P S hP hS]
  show ecdsaLoop L [P, S] 0 (0 + 1) = _
  rw [ecdsaLoop_stop L _ 0 0 (by simp)]
  rfl

theorem ParseECDSAPublicKey_panic (L : Lib) (pubPEM : Bytes)
    (h : L.pemDecode pubPEM = none ∨
      ∃ block, L.pemDecode pubPEM = some block ∧ L.parsePKIX block = none) :
    ParseECDSAPublicKey L pubPEM = .panic := by
  unfold ParseECDSAPublicKey
  rcases h with h | ⟨block, hb, hp⟩
  · rw [h]
  · rw [hb]
    simp only [hp]

theorem printtoken_exit (token : Str) (h : 2 ≤ (split '.' token).length) :
    (print token).2 = .exit 1 := by
  unfold print printtoken
  have h1 : ¬ (split '.' token).length < 2 := by omega
  simp only [h1, if_false]
  by_cases h3 : (split '.' token).length < 3
  · simp only [h3, if_true]
    rfl
  · simp only [h3, if_false]
    rfl

theorem printClaims_eq (parts : List Str) :
    ∀ n i, printClaims parts n i =
      (List.range n).map fun m => Line.claim (i + m) (b64Decode (parts.getD (i + m) [])).1 := by
  intro n
  induction n with
  | zero => intro i; rfl
  | succ n ih =>
    intro i
    rw [printClaims, ih (i + 1), List.range_succ_eq_map]
    simp only [List.map_cons, List.map_map, Nat.add_zero, List.cons.injEq, true_and]
    apply List.map_congr_left
    intro m _
    simp only [Function.comp]
    have : i + 1 + m = i + (m + 1) := by omega
    rw [this]

theorem printSignatures_eq (parts : List Str) :
    ∀ n j, printSignatures parts n j =
      (List.range n).map fun m => Line.signature (j + m) (parts.getD (j + m) []) := by
  intro n
  induction n with
  | zero => intro j; rfl
  | succ n ih =>
    intro j
    rw [printSignatures, ih (j + 1), List.range_succ_eq_map]
    simp only [List.map_cons, List.map_map, Nat.add_zero, List.cons.injEq, true_and]
    apply List.map_congr_left
    intro m _
    simp only [Function.comp]
    have : j + 1 + m = j + (m + 1) := by omega
    rw [this]

theorem layerResult_stop (L : Lib) (parts : List Str) (i j : Nat)
    (hc : ¬ (i < parts.length / 2 ∧ i + 1 < j - 1)) :
    layerResult L parts i j =
      checkLayer L (parts.getD i []) (parts.getD i []) (parts.getD j []) := by
  unfold layerResult
  rw [if_neg hc]

theorem layerResult_step (L : Lib) (parts : List Str) (i j : Nat)
    (hc : i < parts.length / 2 ∧ i + 1 < j - 1) :
    layerResult L parts i j =
      checkLayer L (layerMessage parts i j) (parts.getD i []) (parts.getD j []) := by
  unfold layerResult
  rw [if_pos hc]

/-- The properties of the logged loop from the state `(i, j)`. -/
theorem ecdsaLoopLog_spec (L : Lib) (parts : List Str) :
    ∀ j i,
      (ecdsaLoopLog L parts i j).1 = ecdsaLoop L parts i j ∧
      (ecdsaLoopLog L parts i j).2 ≠ [] ∧
      (∀ n, n < (ecdsaLoopLog L parts i j).2.length →
        (ecdsaLoopLog L parts i j).2.get? n = some (layerEvent parts (i + n) (j - n))) ∧
      (∀ n, n + 1 < (ecdsaLoopLog L parts i j).2.length →
        layerResult L parts (i + n) (j - n) = .ret true) ∧
      (∀ n, n < (ecdsaLoopLog L parts i j).2.length →
        layerResult L parts (i + n) (j - n) = .ret false →
        (ecdsaLoopLog L parts i j).1 = .ret false ∧
          (ecdsaLoopLog L parts i j).2.length = n + 1) := by
  intro j
  induction j with
  | zero =>
    intro i
    have hc : ¬ (i < parts.length / 2 ∧ i + 1 < 0 - 1) := by omega
    rw [ecdsaLoopLog]
    refine ⟨by rw [ecdsaLoop], by simp, ?_, ?_, ?_⟩
    · intro n hn
      have hn0 : n = 0 := by simpa using hn
      subst hn0
      rfl
    · intro n hn
      simp at hn
    · intro n hn hres
      have hn0 : n = 0 := by simpa using hn
      subst hn0
      rw [layerResult_stop L parts _ _ (by simp)] at hres
      exact ⟨hres, rfl⟩
  | succ j ih =>
    intro i
    by_cases hc : i < parts.length / 2 ∧ i + 1 < (j + 1) - 1
    · rw [ecdsaLoopLog, if_pos hc, ecdsaLoop_step L parts i j hc]
      have hlr := layerResult_step L parts i (j + 1) hc
      cases hck : checkLayer L (layerMessage parts i (j + 1)) (parts.getD i [])
          (parts.getD (j + 1) []) with
      | ret ok =>
        cases ok with
        | true =>
          obtain ⟨h1, h2, h3, h4, h5⟩ := ih (i + 1)
          simp only [bind_ret, if_true]
          refine ⟨h1, by simp, ?_, ?_, ?_⟩
          · intro n hn
            cases n with
            | zero => rfl
            | succ m =>
              have hm : m < (ecdsaLoopLog L parts (i + 1) j).2.length := by
                simpa using hn
              rw [List.get?_cons_succ, h3 m hm]
              congr 2 <;> omega
          · intro n hn
            cases n with
            | zero => rw [Nat.add_zero, Nat.sub_zero, hlr, hck]
            | succ m =>
              have hm : m + 1 < (ecdsaLoopLog L parts (i + 1) j).2.length := by
                simpa using hn
              have := h4 m hm
              have e1 : i + (m + 1) = i + 1 + m := by omega
              have e2 : j + 1 - (m + 1) = j - m := by omega
              rw [e1, e2]
              exact this
          · intro n hn hres
            cases n with
            | zero =>
              rw [Nat.add_zero, Nat.sub_zero, hlr, hck] at hres
              cases hres
            | succ m =>
              have hm : m < (ecdsaLoopLog L parts (i + 1) j).2.length := by
                simpa using hn
              have e1 : i + (m + 1) = i + 1 + m := by omega
              have e2 : j + 1 - (m + 1) = j - m := by omega
              rw [e1, e2] at hres
              obtain ⟨r1, r2⟩ := h5 m hm hres
              exact ⟨r1, by simp [r2]⟩
        | false =>
          simp only [bind_ret, Bool.false_eq_true, if_false]
          refine ⟨by first | rfl | trivial, by simp, ?_, ?_, ?_⟩
          · intro n hn
            have hn0 : n = 0 := by simpa using hn
            subst hn0
            rfl
          · intro n hn
            simp at hn
          · intro n hn _
            have hn0 : n = 0 := by simpa using hn
            subst hn0
            exact ⟨trivial, rfl⟩
      | exit c =>
        simp only [bind_exit]
        refine ⟨by first | rfl | trivial, by simp, ?_, ?_, ?_⟩
        · intro n hn
          have hn0 : n = 0 := by simpa using hn
          subst hn0
          rfl
        · intro n hn
          simp at hn
        · intro n hn hres
          have hn0 : n = 0 := by simpa using hn
          subst hn0
          rw [Nat.add_zero, Nat.sub_zero, hlr, hck] at hres
          cases hres
      | panic =>
        simp only [bind_panic]
        refine ⟨by first | rfl | trivial, by simp, ?_, ?_, ?_⟩
        · intro n hn
          have hn0 : n = 0 := by simpa using hn
          subst hn0
          rfl
        · intro n hn
          simp at hn
        · intro n hn hres
          have hn0 : n = 0 := by simpa using hn
          subst hn0
          rw [Nat.add_zero, Nat.sub_zero, hlr, hck] at hres
          cases hres
    · rw [ecdsaLoopLog, if_neg hc, ecdsaLoop_stop L parts i j hc]
      refine ⟨rfl, by simp, ?_, ?_, ?_⟩
      · intro n hn
        have hn0 : n = 0 := by simpa using hn
        subst hn0
        rfl
      · intro n hn
        simp at hn
      · intro n hn hres
        have hn0 : n = 0 := by simpa using hn
        subst hn0
        rw [Nat.add_zero, Nat.sub_zero, layerResult_stop L parts _ _ hc] at hres
        exact ⟨hres, rfl⟩

/-! ## The claims on expiry, errors, exit codes, printing, order and configuration -/

/-- Claim C21, as amended: `validateassertion` does not read the `Exp` field of a key
record. When every record the directory returns for the payload of a two-segment token has `Exp`
earlier than the current time `now` (and holds a public key), the token is reported valid if and
only if one of those records verifies the signature, and reported invalid if and only if none
does. -/
theorem C21_expiry_is_not_checked (L : Lib) (now : ℚ) (payload sigseg : Str)
    (signature : Bytes) (keys : List Str)
    (hP : '.' ∉ payload) (hS : '.' ∉ sigseg)
    (hsig : b64Decode sigseg = (signature, false))
    (hkeys : getkeys L payload = .ret (keys, false))
    (hn : 1 ≤ keys.length - 1)
    (hexpired : ∀ r ∈ keys.dropLast, ∃ e, recordExp L r = .number e ∧ e < now)
    (hparse : ∀ r ∈ keys.dropLast, ∃ k, recordKey L r = .ret k) :
    (validateassertion L (payload ++ ['.'] ++ sigseg) = .ret true ↔
      ∃ r ∈ keys.dropLast, ∃ k, recordKey L r = .ret k ∧
        L.verifyASN1 k (L.sha256 (utf8 payload)) signature = true) ∧
    (validateassertion L (payload ++ ['.'] ++ sigseg) = .ret false ↔
      ∀ r ∈ keys.dropLast, ∀ k, recordKey L r = .ret k →
        L.verifyASN1 k (L.sha256 (utf8 payload)) signature = false) := by
  -- the expiry of the records plays no part: the search never reads `Exp`
  have _unused := hexpired
  have hne : keys.dropLast ≠ [] := by
    intro h
    have := congrArg List.length h
    simp at this
    omega
  rw [validateassertion_two L payload sigseg hP hS,
    checkLayer_eq_search L payload payload sigseg signature keys hsig hkeys]
  exact ⟨searchKeys_true_iff L _ _ _ hne hparse, searchKeys_false_iff L _ _ _ hne hparse⟩

/-- Witness of C21: one record of key 7 with `Exp = 0`, at time 1, and the token
`e2tpZD1rfQ.B2UydHBaRDFyZlE` of key 7, whose payload has `kid` = `k`. -/
theorem C21_witness :
    (∀ r ∈ (splitAfter '\x7d' toyExpired).dropLast,
      ∃ e, recordExp (toyLibExp toyExpired) r = .number e ∧ e < 1) ∧
    (validateassertion (toyLibExp toyExpired)
        ("e2tpZD1rfQ".toList ++ ['.'] ++ "B2UydHBaRDFyZlE".toList) = .ret true ↔
      ∃ r ∈ (splitAfter '\x7d' toyExpired).dropLast, ∃ k,
        recordKey (toyLibExp toyExpired) r = .ret k ∧
        (toyLibExp toyExpired).verifyASN1 k
          ((toyLibExp toyExpired).sha256 (utf8 "e2tpZD1rfQ".toList))
          ((7 : Byte) :: utf8 "e2tpZD1rfQ".toList) = true) :=
  have hexp : ∀ r ∈ (splitAfter '\x7d' toyExpired).dropLast,
      ∃ e, recordExp (toyLibExp toyExpired) r = .number e ∧ e < 1 := by
    intro r hr
    have hr2 : r = toyExpired := by
      have h : (splitAfter '\x7d' toyExpired).dropLast = [toyExpired] := by decide
      rw [h] at hr
      simpa using hr
    subst hr2
    exact ⟨((0 : Nat) : ℚ), rfl, by norm_num⟩
  ⟨hexp,
    (C21_expiry_is_not_checked (toyLibExp toyExpired) 1 "e2tpZD1rfQ".toList
      "B2UydHBaRDFyZlE".toList ((7 : Byte) :: utf8 "e2tpZD1rfQ".toList)
      (splitAfter '\x7d' toyExpired) (by decide) (by decide) (by decide) rfl (by decide) hexp
      (fun r hr => by
        have hr2 : r = toyExpired := by
          have h : (splitAfter '\x7d' toyExpired).dropLast = [toyExpired] := by decide
          rw [h] at hr
          simpa using hr
        subst hr2
        exact ⟨(7 : Byte), rfl⟩)).1⟩

/-- Claim C21 as stated fails: the payload `e2tpZD1rfQ` has `kid` = `k`, the only key record
of the directory has `Exp = 0`, earlier than the time 1, its key verifies the signature, and
`validateassertion` returns true. -/
theorem C21_counterexample :
    getkeys (toyLibExp toyExpired) "e2tpZD1rfQ".toList = .ret ([toyExpired, []], false) ∧
    (∃ e, recordExp (toyLibExp toyExpired) toyExpired = .number e ∧ e < 1) ∧
    validateassertion (toyLibExp toyExpired) "e2tpZD1rfQ.B2UydHBaRDFyZlE".toList = .ret true :=
  ⟨by decide, ⟨((0 : Nat) : ℚ), rfl, by norm_num⟩, by decide⟩

/-- Claim C22, as amended: for input that is not a PEM block, or whose block is not valid
PKIX DER, `ParseECDSAPublicKey` panics (it never returns a non-nil error); a key record with such
a `Pkey` makes the key search panic as soon as it is tried, and `validateassertion` aborts
without trying the next record. -/
theorem C22_malformed_key_panics (L : Lib) (pubPEM : Bytes)
    (hbad : L.pemDecode pubPEM = none ∨
      ∃ block, L.pemDecode pubPEM = some block ∧ L.parsePKIX block = none) :
    ParseECDSAPublicKey L pubPEM = .panic ∧
    (∀ record : Str,
      (b64Decode (sprintS L (mapGet (L.jsonUnmarshal (utf8 (trim ['\\'] record)))
        "Pkey".toList))).1 = pubPEM →
      recordKey L record = .panic ∧
      (∀ hash signature rest, searchKeys L hash signature (record :: rest) = .panic) ∧
      (∀ payload sigseg keys, '.' ∉ payload → '.' ∉ sigseg → (b64Decode sigseg).2 = false →
        getkeys L payload = .ret (record :: keys, false) → keys ≠ [] →
        validateassertion L (payload ++ ['.'] ++ sigseg) = .panic)) := by
  have hp := ParseECDSAPublicKey_panic L pubPEM hbad
  refine ⟨hp, fun record hrec => ?_⟩
  have hrk : recordKey L record = .panic := by
    unfold recordKey
    simp only [hrec, hp, bind_panic]
  refine ⟨hrk, fun hash signature rest => by rw [searchKeys, hrk, bind_panic], ?_⟩
  intro payload sigseg keys hP hS hdec hkeys hne
  rw [validateassertion_two L payload sigseg hP hS]
  unfold checkLayer
  simp only [hdec, hkeys, bind_ret, Bool.false_eq_true, if_false]
  cases keys with
  | nil => exact absurd rfl hne
  | cons k rest =>
    rw [List.dropLast_cons₂, searchKeys, hrk, bind_panic]

/-- Witness of C22: three zero bytes are no PKIX key of the stand-in libraries. -/
theorem C22_witness :
    ParseECDSAPublicKey (toyLib []) [0, 0, 0] = .panic :=
  (C22_malformed_key_panics (toyLib []) [0, 0, 0] (Or.inr ⟨[0, 0, 0], rfl, rfl⟩)).1

/-- Claim C22 as stated fails: `ParseECDSAPublicKey` panics on a block that is not a valid
key, and `validateassertion` panics on a token whose directory answer holds a malformed record
before the record that verifies the signature. -/
theorem C22_counterexample :
    (toyLib []).pemDecode [0, 0, 0] = some [0, 0, 0] ∧
    (toyLib []).parsePKIX [0, 0, 0] = none ∧
    ParseECDSAPublicKey (toyLib []) [0, 0, 0] = .panic ∧
    validateassertion (toyLib "\x7bPkey=AAAA\x7d\x7bPkey=Bw\x7d".toList)
      "e2tpZD1rfQ.B2UydHBaRDFyZlE".toList = .panic ∧
    validateassertion (toyLib "\x7bPkey=Bw\x7d".toList)
      "e2tpZD1rfQ.B2UydHBaRDFyZlE".toList = .ret true :=
  ⟨rfl, rfl, rfl, by decide, by decide⟩

/-- Claim C23, evaluated on the code: the command passes `os.Args[1]`, the command name
itself, to `dasvid.IDKeyPair`, so the printed pair does not depend on the seed argument
`os.Args[2]`: the seeds of the keys 9 and 10 both print the pair of the name `schkeypair`. -/
theorem C23_schkeypair_ignores_seed :
    (∀ (L : Lib) (H : Host L) (program command seed : Str),
      schkeypair H [program, command, seed] =
        (pubkey2string L (H.IDKeyPair command).2).bind fun text =>
          .ret ((H.IDKeyPair command).1, text)) ∧
    (toyHost []).IDKeyPair "\t".toList = ((9 : Byte), (9 : Byte)) ∧
    (toyHost []).IDKeyPair "\n".toList = ((10 : Byte), (10 : Byte)) ∧
    schkeypair (toyHost []) ["assertgen".toList, "schkeypair".toList, "\t".toList] =
      .ret ((115 : Byte), "cw".toList) ∧
    schkeypair (toyHost []) ["assertgen".toList, "schkeypair".toList, "\n".toList] =
      .ret ((115 : Byte), "cw".toList) :=
  ⟨fun _ _ _ _ _ => rfl, rfl, rfl, rfl, rfl⟩

/-- Claim C24, as amended: the commands `ecdsaver`, `schver` and `tracever` end with
`os.Exit(1)` whenever their validator returns, whether it returned true or false, and `print` ends
with `os.Exit(1)` for every token of at least two segments. -/
theorem C24_commands_exit_with_one (L : Lib) (token : Str) :
    (∀ b, validateassertion L token = .ret b → ecdsaver L token = .exit 1) ∧
    (∀ b, validateschnorrassertion L token = .ret b → schver L token = .exit 1) ∧
    (∀ b, validateschnorrtrace L token = .ret b → tracever L token = .exit 1) ∧
    (2 ≤ (split '.' token).length → (print token).2 = .exit 1) := by
  refine ⟨fun b h => ?_, fun b h => ?_, fun b h => ?_, printtoken_exit token⟩
  · unfold ecdsaver; rw [h]; rfl
  · unfold schver; rw [h]; rfl
  · unfold tracever; rw [h]; rfl

/-- Witness of C24: `ecdsaver` on a token that does not verify (payload with `kid` = `k`,
signature of key 7 over another payload). -/
theorem C24_witness :
    ecdsaver (toyLib toyDirectory) "e2tpZD1rfQ.B2UzMQ".toList = .exit 1 :=
  (C24_commands_exit_with_one (toyLib toyDirectory) "e2tpZD1rfQ.B2UzMQ".toList).1 false (by decide)

/-- Claim C24 as stated fails: the validators return true on these tokens (the ECDSA token
has the payload with `kid` = `k` and the signature of key 7) and the commands `ecdsaver`,
`schver` and `tracever` exit with code 1, as does `print` on a four-segment token. -/
theorem C24_counterexample :
    validateassertion (toyLib toyDirectory) "e2tpZD1rfQ.B2UydHBaRDFyZlE".toList = .ret true ∧
    ecdsaver (toyLib toyDirectory) "e2tpZD1rfQ.B2UydHBaRDFyZlE".toList = .exit 1 ∧
    validateschnorrassertion (toyLib []) toyInner = .ret true ∧
    schver (toyLib []) toyInner = .exit 1 ∧
    validateschnorrtrace (toyLib []) toyOuter = .ret true ∧
    tracever (toyLib []) toyOuter = .exit 1 ∧
    (split '.' toyOuter).length = 4 ∧
    (print toyOuter).2 = .exit 1 := by
  decide

/-- Claim C25: the output of `printtoken`. For a token of `2k` segments, `k >= 1`, it
writes the line with the number of parts, then exactly `k` claim lines, the decoded segments
`0, ..., k-1` in token order, then exactly `k` signature lines, the raw segments `k, ..., 2k-1` in
token order, each labelled with its segment index; for a token of fewer than two segments it
writes no claim line and ends the process with `os.Exit(1)`. -/
theorem C25_printtoken_output_shape (token : Str) :
    (∀ k, 1 ≤ k → (split '.' token).length = 2 * k →
      (printtoken token).1 =
        Line.total (2 * k) ::
          (((List.range k).map fun i =>
              Line.claim i (b64Decode ((split '.' token).getD i [])).1) ++
            ((List.range k).map fun n =>
              Line.signature (k + n) ((split '.' token).getD (k + n) [])))) ∧
    ((split '.' token).length < 2 →
      printtoken token = ([Line.total (split '.' token).length, Line.invalid], .exit 1)) := by
  refine ⟨fun k hk hlen => ?_, fun h => ?_⟩
  · unfold printtoken
    have h2 : ¬ (split '.' token).length < 2 := by omega
    simp only [h2, if_false]
    by_cases h3 : (split '.' token).length < 3
    · have hk1 : k = 1 := by omega
      subst hk1
      simp only [h3, if_true, hlen]
      rfl
    · simp only [h3, if_false]
      have hhalf : (split '.' token).length / 2 = k := by omega
      have hrest : (split '.' token).length - k = k := by omega
      rw [hhalf, hrest, printClaims_eq, printSignatures_eq, hlen]
      simp
  · unfold printtoken
    simp only [h, if_true]

/-- Witness of C25: the four-segment token `toyOuter`. -/
theorem C25_witness :
    (printtoken toyOuter).1 =
      [Line.total 4,
        Line.claim 0 (utf8 "\x7biss=CQ\x7d".toList),
        Line.claim 1 (utf8 "\x7biss=Bw;aud=CQ\x7d".toList),
        Line.signature 2 "B2UybHpjejFDZHp0aGRXUTlRMUY5".toList,
        Line.signature 3
          "CWUybHpjejFEVVgwLmUybHpjejFDZHp0aGRXUTlRMUY5LkIyVXliSHBqZWpGRFpIcDBhR1JYVVRsUk1VWTU".toList] :=
  ((C25_printtoken_output_shape toyOuter).1 2 (by decide) (by decide)).trans (by decide)

/-- Claim C26: outer-to-inner order with early exit. The layers that `validateassertion`
examines are, in order, the layers `n = 0, 1, ...`, layer `n` pairing payload `n` with signature
`len(parts)-1-n`; a layer is examined only after every layer before it has passed; and when the
check of layer `n` returns false the function returns false and layer `n` is the last one
examined, so `getkeys` is called for no layer of greater index. -/
theorem C26_outer_to_inner_order (L : Lib) (token : Str) :
    (ecdsaLoopLog L (split '.' token) 0 ((split '.' token).length - 1)).1 =
      validateassertion L token ∧
    (∀ n, n < (ecdsaLoopLog L (split '.' token) 0 ((split '.' token).length - 1)).2.length →
      (ecdsaLoopLog L (split '.' token) 0 ((split '.' token).length - 1)).2.get? n =
        some (layerEvent (split '.' token) n ((split '.' token).length - 1 - n))) ∧
    (∀ n, n + 1 < (ecdsaLoopLog L (split '.' token) 0 ((split '.' token).length - 1)).2.length →
      layerResult L (split '.' token) n ((split '.' token).length - 1 - n) = .ret true) ∧
    (∀ n, n < (ecdsaLoopLog L (split '.' token) 0 ((split '.' token).length - 1)).2.length →
      layerResult L (split '.' token) n ((split '.' token).length - 1 - n) = .ret false →
      validateassertion L token = .ret false ∧
        (ecdsaLoopLog L (split '.' token) 0 ((split '.' token).length - 1)).2.length = n + 1) := by
  obtain ⟨h1, _, h3, h4, h5⟩ :=
    ecdsaLoopLog_spec L (split '.' token) ((split '.' token).length - 1) 0
  have hv : validateassertion L token =
      ecdsaLoop L (split '.' token) 0 ((split '.' token).length - 1) := rfl
  refine ⟨by rw [hv, h1], ?_, ?_, ?_⟩
  · intro n hn
    have := h3 n hn
    rwa [Nat.zero_add] at this
  · intro n hn
    have := h4 n hn
    rwa [Nat.zero_add] at this
  · intro n hn hres
    rw [← Nat.zero_add n] at hres
    have := h5 n hn (by simpa using hres)
    exact ⟨by rw [hv, ← h1]; exact this.1, this.2⟩

/-- Witness of C26: the outer signature of a four-segment token does not verify (both
payloads have `kid` = `k`, the inner token is signed by key 7); only the layer `(0, 3)` is
examined and the function returns false. -/
theorem C26_witness :
    (ecdsaLoopLog (toyLib toyDirectory)
        (split '.' "e2tpZD1rfQ.e2tpZD1rfQ.B2UydHBaRDFyZlE.B2UzMQ".toList) 0
        ((split '.' "e2tpZD1rfQ.e2tpZD1rfQ.B2UydHBaRDFyZlE.B2UzMQ".toList).length - 1)).2 =
      [⟨0, 3, true⟩] ∧
    validateassertion (toyLib toyDirectory)
      "e2tpZD1rfQ.e2tpZD1rfQ.B2UydHBaRDFyZlE.B2UzMQ".toList = .ret false :=
  ⟨by decide,
    ((C26_outer_to_inner_order (toyLib toyDirectory)
      "e2tpZD1rfQ.e2tpZD1rfQ.B2UydHBaRDFyZlE.B2UzMQ".toList).2.2.2 0
      (by decide) (by decide)).1⟩

/-- Claim C27, evaluated on the code: with the variable unset, a configuration file that
holds a blank line, or a line without `=`, makes `setEnvVariable` panic at `parts[1]`; on a file
whose lines all hold `=` it sets the variable once for each line with the requested key, the last
one last. -/
theorem C27_line_without_equals_panics :
    setEnvVariable "SOCKET_PATH".toList [] ["SOCKET_PATH=/tmp/agent.sock".toList, []] = .panic ∧
    setEnvVariable "SOCKET_PATH".toList [] ["# defaults".toList] = .panic ∧
    setEnvVariable "SOCKET_PATH".toList []
        ["A=1".toList, "SOCKET_PATH=/tmp/a".toList, "SOCKET_PATH=/tmp/b".toList] =
      .ret [("SOCKET_PATH".toList, "/tmp/a".toList), ("SOCKET_PATH".toList, "/tmp/b".toList)] := by
  decide


end SignedAssertions
